import Mathlib

/-!
Verification of the oya-ai-workflows lead pipeline core.

The Python sources are shallowly embedded: strings are `String`/`List Char`,
dicts are association lists, SQL rows are structures with `Option` columns,
floats that are only ever assigned and compared are `ℚ`, and the network /
DNS / AI collaborators are explicit parameters.  Each definition mirrors the
corresponding Python function from `src/` (cleaner, email validator,
classifier fallback, campaign eligibility query, template engine, batch
senders).
-/

/-! ## Basic string primitives (Python `str` operations, ASCII semantics) -/

/-- Python whitespace characters recognised by `str.strip` / `\s` (ASCII):
space, tab, newline, carriage return, vertical tab, form feed. -/
def isWS (c : Char) : Bool :=
  c.toNat = 32 || c.toNat = 9 || c.toNat = 10 || c.toNat = 13 ||
  c.toNat = 11 || c.toNat = 12

/-- Python `str.strip()` on a character list. -/
def pyStrip (l : List Char) : List Char :=
  ((l.dropWhile isWS).reverse.dropWhile isWS).reverse

/-- Python `str.strip()` on a `String`. -/
def pyStripS (s : String) : String := String.mk (pyStrip s.data)

/-- ASCII lower-casing of one character (Python `str.lower` on ASCII). -/
def lowerChar (c : Char) : Char :=
  if 65 ≤ c.toNat ∧ c.toNat ≤ 90 then Char.ofNat (c.toNat + 32) else c

/-- ASCII lower-casing of a character list. -/
def pyLower (l : List Char) : List Char := l.map lowerChar

/-- Python `str.lower()` on a `String`. -/
def pyLowerS (s : String) : String := String.mk (pyLower s.data)

/-- Prefix test on character lists. -/
def listStartsWith : List Char → List Char → Bool
  | [], _ => true
  | _ :: _, [] => false
  | p :: ps, c :: cs => p = c && listStartsWith ps cs

/-- Substring (infix) test on character lists, scanning left to right. -/
def listContainsSub (pat : List Char) : List Char → Bool
  | [] => listStartsWith pat []
  | c :: rest => listStartsWith pat (c :: rest) || listContainsSub pat rest

theorem dropWhile_length_le (p : Char → Bool) (l : List Char) :
    (l.dropWhile p).length ≤ l.length := by
  induction l with
  | nil => simp
  | cons c rest ih =>
    simp only [List.dropWhile]
    by_cases h : p c
    · simp only [h]
      exact Nat.le_succ_of_le ih
    · simp [h]

/-- Worker for `collapseWS`: `inRun` records whether the previous character
belonged to a whitespace run already emitted as one space. -/
def collapseGo : Bool → List Char → List Char
  | _, [] => []
  | inRun, c :: rest =>
    if isWS c then
      if inRun then collapseGo true rest else ' ' :: collapseGo true rest
    else c :: collapseGo false rest

/-- `re.sub(r"\s+", " ", ·)`: collapse every whitespace run to one space. -/
def collapseWS (l : List Char) : List Char := collapseGo false l

theorem collapseGo_true (l : List Char) :
    collapseGo true l = collapseGo false (l.dropWhile isWS) := by
  induction l with
  | nil => rfl
  | cons c rest ih =>
    rw [List.dropWhile]
    by_cases h : isWS c
    · rw [h, collapseGo, if_pos h, if_pos rfl, ih]
    · simp only [Bool.not_eq_true] at h
      rw [h, collapseGo, collapseGo]
      simp [h]

/-- The recurrence of `collapseWS` as written in the regex semantics. -/
theorem collapseWS_cons (c : Char) (rest : List Char) :
    collapseWS (c :: rest) =
      if isWS c then ' ' :: collapseWS (rest.dropWhile isWS)
      else c :: collapseWS rest := by
  unfold collapseWS
  rw [collapseGo]
  by_cases h : isWS c
  · rw [if_pos h, if_pos h]
    simp only [Bool.false_eq_true, if_false]
    rw [collapseGo_true]
  · rw [if_neg h, if_neg h]

theorem collapseWS_nil : collapseWS [] = [] := rfl

/-- Regex word character (`\w`, ASCII): `[A-Za-z0-9_]`. -/
def isWordChar (c : Char) : Bool :=
  (48 ≤ c.toNat && c.toNat ≤ 57) || (65 ≤ c.toNat && c.toNat ≤ 90) ||
  (97 ≤ c.toNat && c.toNat ≤ 122) || c.toNat = 95

/-- The generic suffix tokens stripped by `normalize_name`
(`FC|SC|AFC|CF|United|City|Town|Athletic`, case-insensitive), stored
lower-cased in the regex alternation order. -/
def suffixTokens : List (List Char) :=
  [['f','c'], ['s','c'], ['a','f','c'], ['c','f'],
   ['u','n','i','t','e','d'], ['c','i','t','y'], ['t','o','w','n'],
   ['a','t','h','l','e','t','i','c']]

/-- `\b` after a match: next character absent or not a word character. -/
def boundaryAfter : List Char → Bool
  | [] => true
  | c :: _ => !(isWordChar c)

/-- Try the token alternatives in order at the head of `l`
(case-insensitive), returning the matched length when the trailing word
boundary also holds. -/
def tryToks : List (List Char) → List Char → Option Nat
  | [], _ => none
  | t :: ts, l =>
    if listStartsWith t (pyLower l) && boundaryAfter (l.drop t.length) then
      some t.length
    else tryToks ts l

/-- One pass of `re.sub(r"\b(FC|SC|AFC|CF|United|City|Town|Athletic)\b", "", ·,
flags=re.I)`.  `prevWord` records whether the previous character of the
original text was a word character (so that the leading `\b` holds exactly
when it is `false`; every alternative starts with a word character). -/
def removeGo : Bool → Nat → List Char → List Char
  | _, _, [] => []
  | _, k + 1, _ :: rest => removeGo true k rest
  | prevWord, 0, c :: rest =>
    if prevWord then c :: removeGo (isWordChar c) 0 rest
    else
      match tryToks suffixTokens (c :: rest) with
      | some n => removeGo true (n - 1) rest
      | none => c :: removeGo (isWordChar c) 0 rest

def removeToks (prevWord : Bool) (l : List Char) : List Char :=
  removeGo prevWord 0 l

theorem removeGo_skip : ∀ (l : List Char) (k : Nat) (b : Bool),
    removeGo b (k + 1) l = removeGo true 0 (l.drop (k + 1)) := by
  intro l
  induction l with
  | nil => intro k b; rfl
  | cons c rest ih =>
    intro k b
    rw [removeGo]
    cases k with
    | zero => simp
    | succ k2 =>
      rw [ih k2 true]
      simp

/-- The recurrence of `removeToks` as written in the regex semantics:
on a match of length `n` the scan resumes after the matched token. -/
theorem removeToks_cons (prevWord : Bool) (c : Char) (rest : List Char) :
    removeToks prevWord (c :: rest) =
      if prevWord then c :: removeToks (isWordChar c) rest
      else
        match tryToks suffixTokens (c :: rest) with
        | some n => removeToks true (rest.drop (n - 1))
        | none => c :: removeToks (isWordChar c) rest := by
  unfold removeToks
  rw [removeGo]
  by_cases h : prevWord
  · rw [if_pos h, if_pos h]
  · rw [if_neg h, if_neg h]
    cases hm : tryToks suffixTokens (c :: rest) with
    | some n =>
      simp only
      cases n with
      | zero => simp [removeGo_skip]
      | succ n2 =>
        simp only [Nat.succ_sub_one]
        cases n2 with
        | zero => rfl
        | succ n3 => rw [removeGo_skip rest n3 true]
    | none => simp only

theorem removeToks_nil (b : Bool) : removeToks b [] = [] := rfl

/-! ## `src/data/cleaner.py` -/

/-- `normalize_name`: strip, collapse whitespace, strip suffix tokens at word
boundaries (case-insensitively), strip again, lower-case. -/
def normalize_name (name : String) : String :=
  String.mk (pyLower (pyStrip (removeToks false (collapseWS (pyStrip name.data)))))

/-- `normalize_phone`: strip, then drop every character that is neither a
digit nor `+` (`re.sub(r"[^\d+]", "", ·)`). -/
def normalize_phone (phone : String) : String :=
  String.mk ((pyStrip phone.data).filter
    (fun c => (48 ≤ c.toNat && c.toNat ≤ 57) || c.toNat = 43))

/-- `normalize_email`: lowercase and strip. -/
def normalize_email (email : String) : String :=
  String.mk (pyLower (pyStrip email.data))

/-- Trailing-slash removal (`str.rstrip("/")`). -/
def rstripSlash (l : List Char) : List Char :=
  (l.reverse.dropWhile (fun c => c = '/')).reverse

/-- Does the character list start with `http://` or `https://`? -/
def hasScheme (l : List Char) : Bool :=
  listStartsWith "http://".data l || listStartsWith "https://".data l

/-- `normalize_url`: strip; prepend `https://` when non-empty and lacking a
scheme; remove trailing slashes. -/
def normalize_url (url : String) : String :=
  let u := pyStrip url.data
  let u := if u ≠ [] ∧ ¬ hasScheme u then "https://".data ++ u else u
  String.mk (rstripSlash u)

/-- `ScrapedTeam` (src/scraping/base_scraper.py): raw team record. -/
structure ScrapedTeam where
  name : String
  league : String := ""
  location : String := ""
  email : String := ""
  phone : String := ""
  website : String := ""
  social_facebook : String := ""
  social_instagram : String := ""
  social_twitter : String := ""
  contact_name : String := ""
  contact_role : String := ""
  source_url : String := ""
  source_type : String := ""
  raw_data : List (String × String) := []
deriving DecidableEq, Repr

/-- `clean_team`: normalize all fields on a single team record. -/
def clean_team (t : ScrapedTeam) : ScrapedTeam :=
  { t with
    name := pyStripS t.name
    email := if t.email ≠ "" then normalize_email t.email else ""
    phone := if t.phone ≠ "" then normalize_phone t.phone else ""
    website := if t.website ≠ "" then normalize_url t.website else ""
    location := if t.location ≠ "" then pyStripS t.location else ""
    league := if t.league ≠ "" then pyStripS t.league else ""
    contact_name := if t.contact_name ≠ "" then pyStripS t.contact_name else "" }

/-- The duplicate-merge step of `deduplicate_teams`: fill each of the eight
tracked fields of `existing` from `t` only when `existing`'s field is empty
and `t`'s is not. -/
def mergeTeam (existing t : ScrapedTeam) : ScrapedTeam :=
  { existing with
    email := if existing.email = "" ∧ t.email ≠ "" then t.email else existing.email
    phone := if existing.phone = "" ∧ t.phone ≠ "" then t.phone else existing.phone
    website := if existing.website = "" ∧ t.website ≠ "" then t.website else existing.website
    location := if existing.location = "" ∧ t.location ≠ "" then t.location else existing.location
    league := if existing.league = "" ∧ t.league ≠ "" then t.league else existing.league
    social_facebook :=
      if existing.social_facebook = "" ∧ t.social_facebook ≠ "" then t.social_facebook
      else existing.social_facebook
    social_instagram :=
      if existing.social_instagram = "" ∧ t.social_instagram ≠ "" then t.social_instagram
      else existing.social_instagram
    contact_name :=
      if existing.contact_name = "" ∧ t.contact_name ≠ "" then t.contact_name
      else existing.contact_name }

/-- Ordered lookup in the `seen` insertion-ordered dictionary. -/
def lookupSeen (key : String) : List (String × ScrapedTeam) → Option ScrapedTeam
  | [] => none
  | (k, v) :: rest => if k = key then some v else lookupSeen key rest

/-- In-place merge into the entry holding `key` (`seen[key]` mutation). -/
def updateSeen (key : String) (t : ScrapedTeam) :
    List (String × ScrapedTeam) → List (String × ScrapedTeam)
  | [] => []
  | (k, v) :: rest =>
    if k = key then (k, mergeTeam v t) :: rest else (k, v) :: updateSeen key t rest

/-- The loop of `deduplicate_teams` over the insertion-ordered dict `seen`;
the dedup key of `t` is `normalize_name t.name`. -/
def dedupGo (seen : List (String × ScrapedTeam)) :
    List ScrapedTeam → List (String × ScrapedTeam)
  | [] => seen
  | t :: ts =>
    if normalize_name t.name = "" then dedupGo seen ts
    else if (lookupSeen (normalize_name t.name) seen).isSome then
      dedupGo (updateSeen (normalize_name t.name) t seen) ts
    else dedupGo (seen ++ [(normalize_name t.name, t)]) ts

/-- `deduplicate_teams`: remove duplicates, merging data from later
duplicates into the first-seen record per normalized-name key. -/
def deduplicate_teams (teams : List ScrapedTeam) : List ScrapedTeam :=
  (dedupGo [] teams).map Prod.snd

/-- `clean_and_deduplicate`: normalize all fields then deduplicate. -/
def clean_and_deduplicate (teams : List ScrapedTeam) : List ScrapedTeam :=
  deduplicate_teams (teams.map clean_team)

/-! ## String lemmas for the normalization invariants -/

theorem toNat_ofNat_small (n : Nat) (h : n < 55296) : (Char.ofNat n).toNat = n := by
  have hv : Nat.isValidChar n := Or.inl h
  simp only [Char.ofNat, hv, dite_true, Char.toNat, Char.ofNatAux]
  norm_num [UInt32.toNat]

theorem bool_eq_of_iff {a b : Bool} (h : a = true ↔ b = true) : a = b := by
  cases a <;> cases b <;> simp_all

theorem isWS_iff (c : Char) : isWS c = true ↔
    (c.toNat = 32 ∨ c.toNat = 9 ∨ c.toNat = 10 ∨ c.toNat = 13 ∨
     c.toNat = 11 ∨ c.toNat = 12) := by
  simp [isWS, or_assoc]

theorem isWordChar_iff (c : Char) : isWordChar c = true ↔
    ((48 ≤ c.toNat ∧ c.toNat ≤ 57) ∨ (65 ≤ c.toNat ∧ c.toNat ≤ 90) ∨
     (97 ≤ c.toNat ∧ c.toNat ≤ 122) ∨ c.toNat = 95) := by
  simp [isWordChar, or_assoc]

theorem lowerChar_toNat (c : Char) : (lowerChar c).toNat =
    if 65 ≤ c.toNat ∧ c.toNat ≤ 90 then c.toNat + 32 else c.toNat := by
  unfold lowerChar
  split
  · next h => exact toNat_ofNat_small _ (by omega)
  · rfl

theorem lowerChar_of_not (c : Char) (h : ¬ (65 ≤ c.toNat ∧ c.toNat ≤ 90)) :
    lowerChar c = c := by
  unfold lowerChar
  exact if_neg h

theorem lowerChar_idem (c : Char) : lowerChar (lowerChar c) = lowerChar c := by
  apply lowerChar_of_not
  rw [lowerChar_toNat]
  split_ifs with h <;> omega

theorem pyLower_idem (l : List Char) : pyLower (pyLower l) = pyLower l := by
  simp only [pyLower, List.map_map]
  exact List.map_congr_left (fun c _ => lowerChar_idem c)

theorem isWS_lowerChar (c : Char) : isWS (lowerChar c) = isWS c := by
  apply bool_eq_of_iff
  rw [isWS_iff, isWS_iff, lowerChar_toNat]
  split_ifs with h <;> omega

theorem isWordChar_lowerChar (c : Char) : isWordChar (lowerChar c) = isWordChar c := by
  apply bool_eq_of_iff
  rw [isWordChar_iff, isWordChar_iff, lowerChar_toNat]
  split_ifs with h <;> omega

theorem dropWhile_head_false (p : Char → Bool) (l : List Char) (c : Char)
    (rest : List Char) (h : l.dropWhile p = c :: rest) : p c = false := by
  induction l with
  | nil => simp at h
  | cons d ds ih =>
    rw [List.dropWhile] at h
    by_cases hd : p d
    · rw [hd] at h
      simpa using ih h
    · simp only [Bool.not_eq_true] at hd
      rw [hd] at h
      simp only [List.cons.injEq] at h
      rw [← h.1]
      exact hd

theorem dropWhile_eq_self_of_head (p : Char → Bool) (l : List Char)
    (h : ∀ c rest, l = c :: rest → p c = false) : l.dropWhile p = l := by
  cases l with
  | nil => rfl
  | cons c rest =>
    rw [List.dropWhile, h c rest rfl]

theorem dropWhile_pre (p : Char → Bool) (l : List Char) :
    ∃ pre, l = pre ++ l.dropWhile p ∧ ∀ c ∈ pre, p c = true := by
  induction l with
  | nil => exact ⟨[], rfl, by simp⟩
  | cons c rest ih =>
    rw [List.dropWhile]
    by_cases hc : p c
    · obtain ⟨pre, hpre, hall⟩ := ih
      refine ⟨c :: pre, ?_, ?_⟩
      · rw [hc]
        simpa using hpre
      · intro d hd
        rcases List.mem_cons.mp hd with h1 | h1
        · rw [h1]; exact hc
        · exact hall d h1
    · simp only [Bool.not_eq_true] at hc
      rw [hc]
      exact ⟨[], rfl, by simp⟩

/-- No leading whitespace. -/
def noLead (l : List Char) : Prop := ∀ c rest, l = c :: rest → isWS c = false

/-- No trailing whitespace. -/
def noTrail (l : List Char) : Prop := ∀ c, l.getLast? = some c → isWS c = false

theorem reverse_head_getLast (l : List Char) (c : Char) (rest : List Char)
    (h : l.reverse = c :: rest) : l.getLast? = some c := by
  have hh := List.head?_reverse l
  rw [h] at hh
  simpa using hh.symm

theorem pyStrip_eq_self (l : List Char) (h1 : noLead l) (h2 : noTrail l) :
    pyStrip l = l := by
  unfold pyStrip
  rw [dropWhile_eq_self_of_head isWS l h1]
  rw [dropWhile_eq_self_of_head isWS l.reverse
    (fun c rest hc => h2 c (reverse_head_getLast l c rest hc))]
  exact l.reverse_reverse

theorem pyStrip_noLead (l : List Char) : noLead (pyStrip l) := by
  intro c rest h
  unfold pyStrip at h
  obtain ⟨pre, hpre, -⟩ := dropWhile_pre isWS (l.dropWhile isWS).reverse
  have hA : l.dropWhile isWS = c :: (rest ++ pre.reverse) := by
    have : (l.dropWhile isWS).reverse.reverse =
        (pre ++ ((l.dropWhile isWS).reverse.dropWhile isWS)).reverse := by
      rw [← hpre]
    rw [List.reverse_reverse, List.reverse_append] at this
    rw [this, h]
    simp
  exact dropWhile_head_false isWS l c _ hA

theorem pyStrip_noTrail (l : List Char) : noTrail (pyStrip l) := by
  intro c h
  unfold pyStrip at h
  rw [← List.head?_reverse, List.reverse_reverse] at h
  cases hd : (l.dropWhile isWS).reverse.dropWhile isWS with
  | nil => rw [hd] at h; simp at h
  | cons d ds =>
    rw [hd] at h
    simp only [List.head?_cons, Option.some.injEq] at h
    rw [← h]
    exact dropWhile_head_false isWS _ d ds hd

theorem pyStrip_idem (l : List Char) : pyStrip (pyStrip l) = pyStrip l :=
  pyStrip_eq_self _ (pyStrip_noLead l) (pyStrip_noTrail l)

theorem getLast_mem_of_eq (l : List Char) (c : Char) (h : l.getLast? = some c) :
    c ∈ l := by
  cases l with
  | nil => simp at h
  | cons d ds => exact List.mem_of_mem_getLast? h

theorem pyStrip_eq_of_all (l : List Char) (h : ∀ c ∈ l, isWS c = false) :
    pyStrip l = l := by
  apply pyStrip_eq_self
  · intro c rest hc
    exact h c (hc ▸ List.mem_cons_self c rest)
  · intro c hc
    exact h c (getLast_mem_of_eq l c hc)

theorem pyLower_noLead (l : List Char) (h : noLead l) : noLead (pyLower l) := by
  intro c rest hc
  cases l with
  | nil => simp [pyLower] at hc
  | cons d ds =>
    simp only [pyLower, List.map_cons, List.cons.injEq] at hc
    rw [← hc.1, isWS_lowerChar]
    exact h d ds rfl

theorem getLast_pyLower (l : List Char) :
    (pyLower l).getLast? = l.getLast?.map lowerChar := by
  rw [← List.head?_reverse, ← List.head?_reverse]
  show (l.map lowerChar).reverse.head? = _
  rw [← List.map_reverse]
  exact List.head?_map lowerChar l.reverse

theorem pyLower_noTrail (l : List Char) (h : noTrail l) : noTrail (pyLower l) := by
  intro c hc
  rw [getLast_pyLower] at hc
  cases hl : l.getLast? with
  | none => rw [hl] at hc; simp at hc
  | some d =>
    rw [hl] at hc
    simp only [Option.map_some', Option.some.injEq] at hc
    rw [← hc, isWS_lowerChar]
    exact h d hl

theorem collapseWS_nil_iff (l : List Char) : collapseWS l = [] ↔ l = [] := by
  cases l with
  | nil => simp [collapseWS_nil]
  | cons c rest =>
    rw [collapseWS_cons]
    split <;> simp

theorem collapse_noLead (l : List Char) (h : noLead l) : noLead (collapseWS l) := by
  intro c rest hc
  cases l with
  | nil => rw [collapseWS_nil] at hc; exact absurd hc (by simp)
  | cons d ds =>
    have hd : isWS d = false := h d ds rfl
    rw [collapseWS_cons, hd] at hc
    simp only [Bool.false_eq_true, if_false, List.cons.injEq] at hc
    rw [← hc.1]
    exact hd

theorem getLast_cons_ne (c : Char) (rest : List Char) (h : rest ≠ []) :
    (c :: rest).getLast? = rest.getLast? := by
  cases rest with
  | nil => exact absurd rfl h
  | cons d ds => exact List.getLast?_cons_cons

theorem collapse_noTrail : ∀ (n : Nat) (l : List Char), l.length ≤ n →
    noTrail l → noTrail (collapseWS l) := by
  intro n
  induction n with
  | zero =>
    intro l hl _
    have : l = [] := List.eq_nil_of_length_eq_zero (Nat.le_zero.mp hl)
    subst this
    intro c hc
    rw [collapseWS_nil] at hc
    simp at hc
  | succ n ih =>
    intro l hl h
    cases l with
    | nil =>
      intro c hc
      rw [collapseWS_nil] at hc
      simp at hc
    | cons c rest =>
      rw [collapseWS_cons]
      by_cases hc : isWS c
      · rw [if_pos hc]
        set rest2 := rest.dropWhile isWS with hrest2
        have h2ne : rest2 ≠ [] := by
          intro h2
          obtain ⟨pre, hpre, hall⟩ := dropWhile_pre isWS rest
          rw [← hrest2, h2, List.append_nil] at hpre
          have hlast : ∃ x, (c :: rest).getLast? = some x := by
            cases hr : (c :: rest).getLast? with
            | none => simp at hr
            | some x => exact ⟨x, rfl⟩
          obtain ⟨x, hx⟩ := hlast
          have hxmem : x ∈ c :: rest := getLast_mem_of_eq _ x hx
          have hxws : isWS x = true := by
            rcases List.mem_cons.mp hxmem with h1 | h1
            · rw [h1]; exact hc
            · exact hall x (hpre ▸ h1)
          rw [h x hx] at hxws
          exact Bool.false_ne_true hxws
        have hrne : rest ≠ [] := by
          intro hr
          rw [hr] at hrest2
          simp [hrest2] at h2ne
        have hnt2 : noTrail rest2 := by
          intro x hx
          apply h x
          rw [getLast_cons_ne c rest hrne]
          obtain ⟨pre, hpre, -⟩ := dropWhile_pre isWS rest
          rw [hpre, ← hrest2, List.getLast?_append_of_ne_nil pre h2ne]
          exact hx
        have hlen2 : rest2.length ≤ rest.length := by
          rw [hrest2]
          exact dropWhile_length_le isWS rest
        have hcol : noTrail (collapseWS rest2) :=
          ih rest2 (by simp only [List.length_cons] at hl; omega) hnt2
        intro x hx
        have hcne : collapseWS rest2 ≠ [] := by
          intro hh
          exact h2ne ((collapseWS_nil_iff rest2).mp hh)
        rw [getLast_cons_ne ' ' _ hcne] at hx
        exact hcol x hx
      · rw [if_neg hc]
        by_cases hrn : rest = []
        · subst hrn
          intro x hx
          rw [collapseWS_nil] at hx
          simp only [List.getLast?_singleton, Option.some.injEq] at hx
          rw [← hx]
          simpa using hc
        · have hnt : noTrail rest := by
            intro x hx
            apply h x
            rw [getLast_cons_ne c rest hrn]
            exact hx
          have hcol : noTrail (collapseWS rest) :=
            ih rest (by simp only [List.length_cons] at hl; omega) hnt
          intro x hx
          have hcne : collapseWS rest ≠ [] := by
            intro hh
            exact hrn ((collapseWS_nil_iff rest).mp hh)
          rw [getLast_cons_ne c _ hcne] at hx
          exact hcol x hx

theorem collapse_idem : ∀ (n : Nat) (l : List Char), l.length ≤ n →
    collapseWS (collapseWS l) = collapseWS l := by
  intro n
  induction n with
  | zero =>
    intro l hl
    have : l = [] := List.eq_nil_of_length_eq_zero (Nat.le_zero.mp hl)
    subst this
    simp [collapseWS_nil]
  | succ n ih =>
    intro l hl
    cases l with
    | nil => simp [collapseWS_nil]
    | cons c rest =>
      rw [collapseWS_cons]
      by_cases hc : isWS c
      · rw [if_pos hc]
        set rest2 := rest.dropWhile isWS with hrest2
        rw [collapseWS_cons]
        have hws : isWS ' ' = true := by decide
        rw [if_pos hws]
        have hdw : (collapseWS rest2).dropWhile isWS = collapseWS rest2 := by
          apply dropWhile_eq_self_of_head
          intro x xs hx
          cases h2 : rest2 with
          | nil => rw [h2, collapseWS_nil] at hx; simp at hx
          | cons d ds =>
            have hd : isWS d = false := dropWhile_head_false isWS rest d ds (hrest2 ▸ h2)
            rw [h2, collapseWS_cons, hd] at hx
            simp only [Bool.false_eq_true, if_false, List.cons.injEq] at hx
            rw [← hx.1]
            exact hd
        rw [hdw]
        have hlen2 : rest2.length ≤ rest.length := by
          rw [hrest2]
          exact dropWhile_length_le isWS rest
        rw [ih rest2 (by simp only [List.length_cons] at hl; omega)]
      · rw [if_neg hc]
        rw [collapseWS_cons, if_neg hc]
        rw [ih rest (by simp only [List.length_cons] at hl; omega)]

theorem boundaryAfter_pyLower (l : List Char) :
    boundaryAfter (pyLower l) = boundaryAfter l := by
  cases l with
  | nil => rfl
  | cons c rest =>
    simp only [pyLower, List.map_cons, boundaryAfter, isWordChar_lowerChar]

theorem tryToks_lower (ts : List (List Char)) (l : List Char) :
    tryToks ts (pyLower l) = tryToks ts l := by
  induction ts with
  | nil => rfl
  | cons t ts ih =>
    simp only [tryToks]
    have h1 : pyLower (pyLower l) = pyLower l := pyLower_idem l
    have h2 : (pyLower l).drop t.length = pyLower (l.drop t.length) :=
      (List.map_drop lowerChar l t.length).symm
    rw [show pyLower (pyLower l) = pyLower l from h1] at *
    rw [h2, boundaryAfter_pyLower, ih]

theorem dropWhile_pyLower (l : List Char) :
    (pyLower l).dropWhile isWS = pyLower (l.dropWhile isWS) := by
  induction l with
  | nil => rfl
  | cons c rest ih =>
    simp only [pyLower, List.map_cons, List.dropWhile, isWS_lowerChar]
    by_cases h : isWS c
    · rw [h]
      simpa [pyLower] using ih
    · simp only [Bool.not_eq_true] at h
      rw [h]
      rfl

theorem collapse_lower : ∀ (n : Nat) (l : List Char), l.length ≤ n →
    collapseWS (pyLower l) = pyLower (collapseWS l) := by
  intro n
  induction n with
  | zero =>
    intro l hl
    have : l = [] := List.eq_nil_of_length_eq_zero (Nat.le_zero.mp hl)
    subst this
    rfl
  | succ n ih =>
    intro l hl
    cases l with
    | nil => rfl
    | cons c rest =>
      simp only [pyLower, List.map_cons]
      rw [show collapseWS (lowerChar c :: List.map lowerChar rest) =
          if isWS (lowerChar c) then
            ' ' :: collapseWS ((List.map lowerChar rest).dropWhile isWS)
          else lowerChar c :: collapseWS (List.map lowerChar rest)
        from collapseWS_cons _ _]
      rw [collapseWS_cons c rest, isWS_lowerChar]
      by_cases hc : isWS c
      · rw [if_pos hc, if_pos hc]
        have hdw : (List.map lowerChar rest).dropWhile isWS =
            List.map lowerChar (rest.dropWhile isWS) := dropWhile_pyLower rest
        rw [hdw]
        have hlen : (rest.dropWhile isWS).length ≤ n := by
          have := dropWhile_length_le isWS rest
          simp only [List.length_cons] at hl
          omega
        have := ih (rest.dropWhile isWS) hlen
        simp only [pyLower] at this
        rw [this]
        simp [pyLower, lowerChar_of_not ' ' (by decide)]
      · rw [if_neg hc, if_neg hc]
        have := ih rest (by simp only [List.length_cons] at hl; omega)
        simp only [pyLower] at this
        rw [this]
        rfl

theorem removeToks_lower : ∀ (n : Nat) (b : Bool) (l : List Char), l.length ≤ n →
    removeToks b (pyLower l) = pyLower (removeToks b l) := by
  intro n
  induction n with
  | zero =>
    intro b l hl
    have : l = [] := List.eq_nil_of_length_eq_zero (Nat.le_zero.mp hl)
    subst this
    rfl
  | succ n ih =>
    intro b l hl
    cases l with
    | nil => rfl
    | cons c rest =>
      simp only [pyLower, List.map_cons]
      cases b with
      | true =>
        rw [removeToks_cons true (lowerChar c), removeToks_cons true c,
          if_pos rfl, if_pos rfl, isWordChar_lowerChar]
        have := ih (isWordChar c) rest (by simp only [List.length_cons] at hl; omega)
        simp only [pyLower] at this
        rw [this]
        rfl
      | false =>
        rw [removeToks_cons false (lowerChar c), removeToks_cons false c]
        simp only [Bool.false_eq_true, if_false]
        have htt : tryToks suffixTokens (lowerChar c :: List.map lowerChar rest) =
            tryToks suffixTokens (c :: rest) := by
          have := tryToks_lower suffixTokens (c :: rest)
          simpa [pyLower] using this
        rw [htt]
        cases hm : tryToks suffixTokens (c :: rest) with
        | some k =>
          simp only [hm]
          have hmap : (List.map lowerChar rest).drop (k - 1) =
              List.map lowerChar (rest.drop (k - 1)) :=
            (List.map_drop lowerChar rest (k - 1)).symm
          rw [hmap]
          have := ih true (rest.drop (k - 1)) (by
            have := List.length_drop (k - 1) rest
            simp only [List.length_cons] at hl
            omega)
          simpa [pyLower] using this
        | none =>
          simp only [hm, isWordChar_lowerChar]
          have := ih (isWordChar c) rest (by simp only [List.length_cons] at hl; omega)
          simpa [pyLower] using this

theorem normalize_phone_idem (s : String) :
    normalize_phone (normalize_phone s) = normalize_phone s := by
  unfold normalize_phone
  set keep : Char → Bool :=
    fun c => (48 ≤ c.toNat && c.toNat ≤ 57) || c.toNat = 43 with hkeep
  show String.mk ((pyStrip ((pyStrip s.data).filter keep)).filter keep) = _
  have hmem : ∀ c ∈ (pyStrip s.data).filter keep, isWS c = false := by
    intro c hc
    have hk : keep c = true := List.of_mem_filter hc
    rw [hkeep] at hk
    simp only [Bool.or_eq_true, Bool.and_eq_true, decide_eq_true_eq] at hk
    apply bool_eq_of_iff
    rw [isWS_iff]
    constructor
    · intro hw
      omega
    · intro hw
      exact absurd hw (by simp)
  rw [pyStrip_eq_of_all _ hmem]
  have hff : ∀ a ∈ (pyStrip s.data).filter keep, keep a = true :=
    fun a ha => List.of_mem_filter ha
  rw [List.filter_eq_self.mpr hff]

theorem normalize_email_idem (s : String) :
    normalize_email (normalize_email s) = normalize_email s := by
  unfold normalize_email
  show String.mk (pyLower (pyStrip (pyLower (pyStrip s.data)))) = _
  rw [pyStrip_eq_self (pyLower (pyStrip s.data))
    (pyLower_noLead _ (pyStrip_noLead s.data))
    (pyLower_noTrail _ (pyStrip_noTrail s.data))]
  rw [pyLower_idem]

theorem normalize_name_idem_of (s : String)
    (H : removeToks false (collapseWS (pyStrip s.data)) = collapseWS (pyStrip s.data)) :
    normalize_name (normalize_name s) = normalize_name s := by
  unfold normalize_name
  set A := pyStrip s.data with hA
  set u := collapseWS A with hu
  have hnlu : noLead u := collapse_noLead A (pyStrip_noLead s.data)
  have hntu : noTrail u := collapse_noTrail A.length A (le_refl _) (pyStrip_noTrail s.data)
  have hstripu : pyStrip u = u := pyStrip_eq_self u hnlu hntu
  rw [H, hstripu]
  show String.mk (pyLower (pyStrip (removeToks false
      (collapseWS (pyStrip (pyLower u)))))) = _
  have hstript : pyStrip (pyLower u) = pyLower u :=
    pyStrip_eq_self _ (pyLower_noLead u hnlu) (pyLower_noTrail u hntu)
  rw [hstript]
  have hcolt : collapseWS (pyLower u) = pyLower u := by
    rw [collapse_lower u.length u (le_refl _), hu,
      collapse_idem A.length A (le_refl _)]
  rw [hcolt]
  have hremt : removeToks false (pyLower u) = pyLower u := by
    rw [removeToks_lower u.length false u (le_refl _), H]
  rw [hremt, hstript, pyLower_idem]

theorem rstripSlash_getLast (l : List Char) (c : Char)
    (h : (rstripSlash l).getLast? = some c) : (c = '/') = False := by
  unfold rstripSlash at h
  rw [← List.head?_reverse, List.reverse_reverse] at h
  cases hd : l.reverse.dropWhile (fun c => c = '/') with
  | nil => rw [hd] at h; simp at h
  | cons d ds =>
    rw [hd] at h
    simp only [List.head?_cons, Option.some.injEq] at h
    have := dropWhile_head_false (fun c => decide (c = '/')) l.reverse d ds (by simpa using hd)
    simp only [decide_eq_false_iff_not] at this
    subst h
    simp [this]

theorem rstripSlash_eq_self (l : List Char)
    (h : ∀ c, l.getLast? = some c → ¬ c = '/') : rstripSlash l = l := by
  unfold rstripSlash
  rw [dropWhile_eq_self_of_head _ l.reverse (by
    intro c rest hc
    have := h c (reverse_head_getLast l c rest hc)
    simpa using this)]
  exact l.reverse_reverse

theorem string_mk_data (s : String) : String.mk s.data = s := rfl

theorem normalize_url_rstrip (s : String) :
    ∃ v, (normalize_url s).data = rstripSlash v := by
  unfold normalize_url
  exact ⟨_, rfl⟩

theorem normalize_url_fix (s : String)
    (h1 : pyStrip (normalize_url s).data = (normalize_url s).data)
    (h2 : (normalize_url s).data = [] ∨ hasScheme (normalize_url s).data = true) :
    normalize_url (normalize_url s) = normalize_url s := by
  conv_lhs => rw [normalize_url]
  rw [h1]
  have hbranch : (if (normalize_url s).data ≠ [] ∧ ¬ hasScheme (normalize_url s).data
      then "https://".data ++ (normalize_url s).data else (normalize_url s).data) =
      (normalize_url s).data := by
    rcases h2 with h2 | h2
    · rw [if_neg]
      intro hcon
      exact hcon.1 h2
    · rw [if_neg]
      intro hcon
      rw [h2] at hcon
      exact hcon.2 (by simp)
  rw [hbranch]
  obtain ⟨v, hv⟩ := normalize_url_rstrip s
  rw [rstripSlash_eq_self _ (by
    intro c hc
    rw [hv] at hc
    have := rstripSlash_getLast v c hc
    simp only [eq_iff_iff, iff_false] at this
    exact this)]

/-- C8 counterexample: the name and url normalizers are not idempotent as
claimed for every string; `normalize_name` leaves a double space behind when
a suffix token is removed from the middle of `"a FC b"`, and
`normalize_url "/"` yields `"https:"` which re-normalizes to
`"https://https:"`. -/
theorem C8_counterexample :
    normalize_name (normalize_name "a FC b") ≠ normalize_name "a FC b" ∧
    normalize_url (normalize_url "/") ≠ normalize_url "/" := by decide

/-- C8 (amended): the phone and email normalizers are idempotent on every
string; the name normalizer is idempotent on every name on which the
suffix-token pass removes nothing; the url normalizer is idempotent on every
url whose normalized form is already stripped and is empty or scheme-prefixed
(by the counterexamples, neither holds unconditionally). -/
theorem C8_normalizers_idempotent :
    (∀ s : String, normalize_phone (normalize_phone s) = normalize_phone s) ∧
    (∀ s : String, normalize_email (normalize_email s) = normalize_email s) ∧
    (∀ s : String,
      removeToks false (collapseWS (pyStrip s.data)) = collapseWS (pyStrip s.data) →
      normalize_name (normalize_name s) = normalize_name s) ∧
    (∀ s : String,
      pyStrip (normalize_url s).data = (normalize_url s).data →
      ((normalize_url s).data = [] ∨ hasScheme (normalize_url s).data = true) →
      normalize_url (normalize_url s) = normalize_url s) :=
  ⟨normalize_phone_idem, normalize_email_idem, normalize_name_idem_of, normalize_url_fix⟩

/-- Witness for C8: the guarded conjuncts applied at concrete inputs. -/
theorem C8_normalizers_idempotent_witness :
    normalize_name (normalize_name " Riverside  Rovers ") =
      normalize_name " Riverside  Rovers " ∧
    normalize_url (normalize_url " example.com/ ") = normalize_url " example.com/ " :=
  ⟨C8_normalizers_idempotent.2.2.1 " Riverside  Rovers " (by decide),
   C8_normalizers_idempotent.2.2.2 " example.com/ " (by decide) (by decide)⟩

/-! ## Deduplication lemmas (C1, C2) -/

theorem mergeTeam_name (a b : ScrapedTeam) : (mergeTeam a b).name = a.name := rfl

/-- First non-empty string in a list, else `""`. -/
def firstNonEmpty : List String → String
  | [] => ""
  | x :: xs => if x ≠ "" then x else firstNonEmpty xs

theorem foldl_merge_proj (get : ScrapedTeam → String)
    (hm : ∀ a b, get (mergeTeam a b) =
      if get a = "" ∧ get b ≠ "" then get b else get a) :
    ∀ (gs : List ScrapedTeam) (v : ScrapedTeam),
    get (gs.foldl mergeTeam v) =
      if get v = "" then firstNonEmpty (gs.map get) else get v := by
  intro gs
  induction gs with
  | nil =>
    intro v
    rw [List.foldl_nil, List.map_nil, firstNonEmpty]
    by_cases h : get v = "" <;> simp [h]
  | cons t ts ih =>
    intro v
    rw [List.foldl_cons, ih (mergeTeam v t), hm v t, List.map_cons, firstNonEmpty]
    by_cases hv : get v = ""
    · by_cases ht : get t = ""
      · simp [hv, ht]
      · simp [hv, ht]
    · simp [hv]

theorem foldl_merge_keep {β : Type} (get : ScrapedTeam → β)
    (hm : ∀ a b, get (mergeTeam a b) = get a) :
    ∀ (gs : List ScrapedTeam) (v : ScrapedTeam), get (gs.foldl mergeTeam v) = get v := by
  intro gs
  induction gs with
  | nil => intro v; rfl
  | cons t ts ih =>
    intro v
    rw [List.foldl_cons, ih (mergeTeam v t), hm]

theorem starts_firstNonEmpty (x : String) (xs : List String) :
    firstNonEmpty (x :: xs) = if x = "" then firstNonEmpty xs else x := by
  rw [firstNonEmpty]
  by_cases h : x = "" <;> simp [h]

theorem lookupSeen_update (k key : String) (t : ScrapedTeam)
    (seen : List (String × ScrapedTeam)) :
    lookupSeen k (updateSeen key t seen) =
      if k = key then Option.map (fun v => mergeTeam v t) (lookupSeen k seen)
      else lookupSeen k seen := by
  induction seen with
  | nil => simp [updateSeen, lookupSeen]
  | cons e rest ih =>
    obtain ⟨k0, v0⟩ := e
    rw [updateSeen]
    by_cases h0 : k0 = key
    · rw [if_pos h0, lookupSeen, lookupSeen]
      by_cases hk : k0 = k
      · rw [if_pos hk, if_pos hk]
        have hkey : k = key := by rw [← hk]; exact h0
        rw [if_pos hkey]
        rfl
      · rw [if_neg hk, if_neg hk]
        have hkey : ¬ k = key := by
          rw [← h0]
          intro hc
          exact hk hc.symm
        rw [if_neg hkey]
    · rw [if_neg h0, lookupSeen, lookupSeen]
      by_cases hk : k0 = k
      · rw [if_pos hk, if_pos hk]
        have hkey : ¬ k = key := by
          rw [← hk]
          exact h0
        rw [if_neg hkey]
      · rw [if_neg hk, if_neg hk, ih]

theorem lookupSeen_append_one (k key : String) (t : ScrapedTeam)
    (seen : List (String × ScrapedTeam)) :
    lookupSeen k (seen ++ [(key, t)]) =
      match lookupSeen k seen with
      | some v => some v
      | none => if k = key then some t else none := by
  induction seen with
  | nil =>
    simp only [List.nil_append, lookupSeen]
    by_cases h : key = k
    · rw [if_pos h, if_pos h.symm]
    · rw [if_neg h, if_neg (fun hh => h hh.symm)]
  | cons e rest ih =>
    obtain ⟨k0, v0⟩ := e
    rw [List.cons_append, lookupSeen, lookupSeen]
    by_cases hk : k0 = k
    · rw [if_pos hk, if_pos hk]
    · rw [if_neg hk, if_neg hk, ih]

theorem lookupSeen_append_none (k key : String) (t : ScrapedTeam)
    (seen : List (String × ScrapedTeam)) (h : lookupSeen k seen = none) :
    lookupSeen k (seen ++ [(key, t)]) = if k = key then some t else none := by
  rw [lookupSeen_append_one, h]

theorem dedupGo_lookup (k : String) (hk : k ≠ "") :
    ∀ (l : List ScrapedTeam) (seen : List (String × ScrapedTeam)),
    lookupSeen k (dedupGo seen l) =
      match lookupSeen k seen with
      | some v => some ((l.filter (fun t => normalize_name t.name = k)).foldl mergeTeam v)
      | none =>
        match l.filter (fun t => normalize_name t.name = k) with
        | [] => none
        | g :: gs => some (gs.foldl mergeTeam g) := by
  intro l
  induction l with
  | nil =>
    intro seen
    rw [dedupGo]
    cases lookupSeen k seen <;> simp
  | cons t ts ih =>
    intro seen
    rw [dedupGo]
    by_cases hkey : normalize_name t.name = ""
    · rw [if_pos hkey]
      have hne : (decide (normalize_name t.name = k)) = false := by
        simp only [decide_eq_false_iff_not]
        intro hc
        exact hk (hc ▸ hkey)
      rw [ih seen, List.filter_cons_of_neg (by simpa using hne)]
    · rw [if_neg hkey]
      by_cases hmem : (lookupSeen (normalize_name t.name) seen).isSome
      · rw [if_pos hmem]
        rw [ih (updateSeen (normalize_name t.name) t seen)]
        rw [lookupSeen_update k (normalize_name t.name) t seen]
        by_cases hkk : k = normalize_name t.name
        · rw [if_pos hkk]
          obtain ⟨v, hv⟩ := Option.isSome_iff_exists.mp hmem
          rw [← hkk] at hv
          rw [hv]
          simp only [Option.map_some']
          rw [List.filter_cons_of_pos (by simp [hkk])]
          rw [List.foldl_cons]
        · rw [if_neg hkk]
          rw [List.filter_cons_of_neg (by simp; intro hc; exact hkk hc.symm)]
      · rw [if_neg hmem]
        rw [ih (seen ++ [(normalize_name t.name, t)])]
        rw [lookupSeen_append_one k (normalize_name t.name) t seen]
        by_cases hkk : k = normalize_name t.name
        · rw [if_pos hkk]
          have hnone : lookupSeen k seen = none := by
            rw [hkk]
            cases hcase : lookupSeen (normalize_name t.name) seen with
            | none => rfl
            | some v => rw [hcase] at hmem; simp at hmem
          rw [hnone]
          simp only []
          rw [List.filter_cons_of_pos (by simp [hkk])]
        · rw [if_neg hkk]
          rw [List.filter_cons_of_neg (by simp; intro hc; exact hkk hc.symm)]
          cases lookupSeen k seen <;> rfl

/-- Invariant of the `seen` dictionary: every stored key is the normalized
name of its record and is non-empty; keys are pairwise distinct. -/
def seenInv (seen : List (String × ScrapedTeam)) : Prop :=
  (∀ e ∈ seen, e.1 = normalize_name e.2.name ∧ e.1 ≠ "") ∧
  (seen.map Prod.fst).Nodup

theorem updateSeen_fst (key : String) (t : ScrapedTeam)
    (seen : List (String × ScrapedTeam)) :
    (updateSeen key t seen).map Prod.fst = seen.map Prod.fst := by
  induction seen with
  | nil => rfl
  | cons e rest ih =>
    obtain ⟨k0, v0⟩ := e
    rw [updateSeen]
    by_cases h0 : k0 = key
    · rw [if_pos h0]
      simp
    · rw [if_neg h0]
      simp only [List.map_cons, ih]

theorem updateSeen_mem (key : String) (t : ScrapedTeam)
    (seen : List (String × ScrapedTeam)) (e : String × ScrapedTeam)
    (h : e ∈ updateSeen key t seen) :
    e ∈ seen ∨ ∃ v, (e.1, v) ∈ seen ∧ e.2 = mergeTeam v t := by
  induction seen with
  | nil => simp [updateSeen] at h
  | cons e0 rest ih =>
    obtain ⟨k0, v0⟩ := e0
    rw [updateSeen] at h
    by_cases h0 : k0 = key
    · rw [if_pos h0] at h
      rcases List.mem_cons.mp h with h1 | h1
      · right
        exact ⟨v0, by rw [h1]; simp, by rw [h1]⟩
      · left
        exact List.mem_cons_of_mem _ h1
    · rw [if_neg h0] at h
      rcases List.mem_cons.mp h with h1 | h1
      · left
        rw [h1]
        simp
      · rcases ih h1 with h2 | ⟨v, hv1, hv2⟩
        · exact Or.inl (List.mem_cons_of_mem _ h2)
        · exact Or.inr ⟨v, List.mem_cons_of_mem _ hv1, hv2⟩

theorem updateSeen_inv (key : String) (t : ScrapedTeam)
    (seen : List (String × ScrapedTeam)) (h : seenInv seen) :
    seenInv (updateSeen key t seen) := by
  constructor
  · intro e he
    rcases updateSeen_mem key t seen e he with h1 | ⟨v, hv1, hv2⟩
    · exact h.1 e h1
    · have := h.1 (e.1, v) hv1
      simp only at this
      refine ⟨?_, this.2⟩
      rw [hv2, mergeTeam_name]
      exact this.1
  · rw [updateSeen_fst]
    exact h.2

theorem lookupSeen_none_iff (k : String) (seen : List (String × ScrapedTeam)) :
    lookupSeen k seen = none ↔ k ∉ seen.map Prod.fst := by
  induction seen with
  | nil => simp [lookupSeen]
  | cons e rest ih =>
    obtain ⟨k0, v0⟩ := e
    rw [lookupSeen]
    by_cases h0 : k0 = k
    · rw [if_pos h0]
      simp [h0]
    · rw [if_neg h0]
      simp only [List.map_cons, List.mem_cons, ih]
      constructor
      · intro h1 h2
        rcases h2 with h2 | h2
        · exact h0 h2.symm
        · exact h1 h2
      · intro h1 h2
        exact h1 (Or.inr h2)

theorem dedupGo_inv (l : List ScrapedTeam) :
    ∀ seen, seenInv seen → seenInv (dedupGo seen l) := by
  induction l with
  | nil => intro seen h; exact h
  | cons t ts ih =>
    intro seen h
    rw [dedupGo]
    by_cases hkey : normalize_name t.name = ""
    · rw [if_pos hkey]
      exact ih seen h
    · rw [if_neg hkey]
      by_cases hmem : (lookupSeen (normalize_name t.name) seen).isSome
      · rw [if_pos hmem]
        exact ih _ (updateSeen_inv _ t seen h)
      · rw [if_neg hmem]
        apply ih
        constructor
        · intro e he
          rcases List.mem_append.mp he with h1 | h1
          · exact h.1 e h1
          · simp only [List.mem_singleton] at h1
            rw [h1]
            exact ⟨rfl, hkey⟩
        · rw [List.map_append]
          simp only [List.map_cons, List.map_nil]
          rw [List.nodup_append]
          refine ⟨h.2, List.nodup_singleton _, ?_⟩
          intro a ha hb
          simp only [List.mem_singleton] at hb
          subst hb
          have : lookupSeen (normalize_name t.name) seen = none := by
            cases hc : lookupSeen (normalize_name t.name) seen with
            | none => rfl
            | some v => rw [hc] at hmem; simp at hmem
          exact (lookupSeen_none_iff _ seen).mp this ha

theorem lookupSeen_mem (k : String) (seen : List (String × ScrapedTeam))
    (v : ScrapedTeam) (h : lookupSeen k seen = some v) : (k, v) ∈ seen := by
  induction seen with
  | nil => simp [lookupSeen] at h
  | cons e rest ih =>
    obtain ⟨k0, v0⟩ := e
    rw [lookupSeen] at h
    by_cases h0 : k0 = k
    · rw [if_pos h0] at h
      simp only [Option.some.injEq] at h
      rw [← h0, ← h]
      simp
    · rw [if_neg h0] at h
      exact List.mem_cons_of_mem _ (ih h)

theorem lookupSeen_of_mem (seen : List (String × ScrapedTeam))
    (e : String × ScrapedTeam) (h : e ∈ seen)
    (hnd : (seen.map Prod.fst).Nodup) : lookupSeen e.1 seen = some e.2 := by
  induction seen with
  | nil => simp at h
  | cons e0 rest ih =>
    obtain ⟨k0, v0⟩ := e0
    rw [lookupSeen]
    rcases List.mem_cons.mp h with h1 | h1
    · rw [h1]
      simp
    · by_cases h0 : k0 = e.1
      · exfalso
        simp only [List.map_cons, List.nodup_cons] at hnd
        apply hnd.1
        rw [h0]
        exact List.mem_map_of_mem Prod.fst h1
      · rw [if_neg h0]
        simp only [List.map_cons, List.nodup_cons] at hnd
        exact ih h1 hnd.2

theorem mem_dedup_iff (teams : List ScrapedTeam) (r : ScrapedTeam) :
    r ∈ deduplicate_teams teams ↔
      lookupSeen (normalize_name r.name) (dedupGo [] teams) = some r := by
  have hinv : seenInv (dedupGo [] teams) :=
    dedupGo_inv teams [] ⟨by simp, by simp⟩
  constructor
  · intro h
    unfold deduplicate_teams at h
    obtain ⟨e, he, hesnd⟩ := List.mem_map.mp h
    have hk : e.1 = normalize_name e.2.name := (hinv.1 e he).1
    have := lookupSeen_of_mem _ e he hinv.2
    rw [hk, hesnd] at this
    exact this
  · intro h
    unfold deduplicate_teams
    have := lookupSeen_mem _ _ _ h
    exact List.mem_map_of_mem Prod.snd this

/-- C1 counterexample: a later duplicate's non-empty `social_twitter` is NOT
merged into the canonical record — the merge step only covers eight fields,
so the claim that every non-empty field of a duplicate is merged fails. -/
theorem C1_counterexample :
    (deduplicate_teams
        [{ name := "Oak" }, { name := "Oak", social_twitter := "@oakfc" }]).map
      (fun t => t.social_twitter) = [""] ∧
    ({ name := "Oak", social_twitter := "@oakfc" } : ScrapedTeam).social_twitter ≠ "" := by
  decide

/-- C1 (amended): per non-empty dedup key, exactly one canonical record
survives; its eight merged fields (email, phone, website, location, league,
social_facebook, social_instagram, contact_name) each hold the first
non-empty value of the key group in input order — so a populated field is
never overwritten — while its remaining fields (name, social_twitter,
contact_role, source_url, source_type, raw_data) are taken from the
first-seen record only. -/
theorem C1_dedup_merge (teams : List ScrapedTeam) (k : String) (g0 : ScrapedTeam)
    (gs : List ScrapedTeam) (hk : k ≠ "")
    (hg : teams.filter (fun t => normalize_name t.name = k) = g0 :: gs) :
    ∃ r, r ∈ deduplicate_teams teams ∧
      (∀ r2 ∈ deduplicate_teams teams, normalize_name r2.name = k → r2 = r) ∧
      r.name = g0.name ∧
      r.email = firstNonEmpty ((g0 :: gs).map (fun t => t.email)) ∧
      r.phone = firstNonEmpty ((g0 :: gs).map (fun t => t.phone)) ∧
      r.website = firstNonEmpty ((g0 :: gs).map (fun t => t.website)) ∧
      r.location = firstNonEmpty ((g0 :: gs).map (fun t => t.location)) ∧
      r.league = firstNonEmpty ((g0 :: gs).map (fun t => t.league)) ∧
      r.social_facebook = firstNonEmpty ((g0 :: gs).map (fun t => t.social_facebook)) ∧
      r.social_instagram = firstNonEmpty ((g0 :: gs).map (fun t => t.social_instagram)) ∧
      r.contact_name = firstNonEmpty ((g0 :: gs).map (fun t => t.contact_name)) ∧
      r.social_twitter = g0.social_twitter ∧
      r.contact_role = g0.contact_role ∧
      r.source_url = g0.source_url ∧
      r.source_type = g0.source_type ∧
      r.raw_data = g0.raw_data := by
  have hlook : lookupSeen k (dedupGo [] teams) = some (gs.foldl mergeTeam g0) := by
    rw [dedupGo_lookup k hk teams []]
    rw [show lookupSeen k [] = none from rfl]
    rw [hg]
  have hg0 : normalize_name g0.name = k := by
    have : g0 ∈ teams.filter (fun t => normalize_name t.name = k) := by
      rw [hg]
      simp
    have := List.of_mem_filter this
    simpa using this
  have hname : (gs.foldl mergeTeam g0).name = g0.name :=
    foldl_merge_keep (fun t => t.name) (fun a b => rfl) gs g0
  refine ⟨gs.foldl mergeTeam g0, ?_, ?_, hname, ?_, ?_, ?_, ?_, ?_, ?_, ?_, ?_,
    ?_, ?_, ?_, ?_, ?_⟩
  · rw [mem_dedup_iff, hname, hg0]
    exact hlook
  · intro r2 h2 hk2
    have := (mem_dedup_iff teams r2).mp h2
    rw [hk2, hlook] at this
    have h3 : List.foldl mergeTeam g0 gs = r2 := by simpa using this
    exact h3.symm
  · rw [foldl_merge_proj (fun t => t.email) (fun a b => rfl) gs g0,
      List.map_cons, starts_firstNonEmpty]
  · rw [foldl_merge_proj (fun t => t.phone) (fun a b => rfl) gs g0,
      List.map_cons, starts_firstNonEmpty]
  · rw [foldl_merge_proj (fun t => t.website) (fun a b => rfl) gs g0,
      List.map_cons, starts_firstNonEmpty]
  · rw [foldl_merge_proj (fun t => t.location) (fun a b => rfl) gs g0,
      List.map_cons, starts_firstNonEmpty]
  · rw [foldl_merge_proj (fun t => t.league) (fun a b => rfl) gs g0,
      List.map_cons, starts_firstNonEmpty]
  · rw [foldl_merge_proj (fun t => t.social_facebook) (fun a b => rfl) gs g0,
      List.map_cons, starts_firstNonEmpty]
  · rw [foldl_merge_proj (fun t => t.social_instagram) (fun a b => rfl) gs g0,
      List.map_cons, starts_firstNonEmpty]
  · rw [foldl_merge_proj (fun t => t.contact_name) (fun a b => rfl) gs g0,
      List.map_cons, starts_firstNonEmpty]
  · exact foldl_merge_keep (fun t => t.social_twitter) (fun a b => rfl) gs g0
  · exact foldl_merge_keep (fun t => t.contact_role) (fun a b => rfl) gs g0
  · exact foldl_merge_keep (fun t => t.source_url) (fun a b => rfl) gs g0
  · exact foldl_merge_keep (fun t => t.source_type) (fun a b => rfl) gs g0
  · exact foldl_merge_keep (fun t => t.raw_data) (fun a b => rfl) gs g0

/-- Two concrete raw records sharing the dedup key `"oak"`. -/
def oakA : ScrapedTeam := { name := "Oak FC", email := "a@x.com" }

/-- Second concrete raw record with complementary fields. -/
def oakB : ScrapedTeam := { name := "oak", phone := "+1", email := "b@x.com" }

/-- Witness for C1: the merge characterization applied to a concrete batch. -/
theorem C1_dedup_merge_witness :
    ∃ r, r ∈ deduplicate_teams [oakA, oakB] ∧
      (∀ r2 ∈ deduplicate_teams [oakA, oakB],
        normalize_name r2.name = "oak" → r2 = r) ∧
      r.name = oakA.name ∧
      r.email = firstNonEmpty ((oakA :: [oakB]).map (fun t => t.email)) ∧
      r.phone = firstNonEmpty ((oakA :: [oakB]).map (fun t => t.phone)) ∧
      r.website = firstNonEmpty ((oakA :: [oakB]).map (fun t => t.website)) ∧
      r.location = firstNonEmpty ((oakA :: [oakB]).map (fun t => t.location)) ∧
      r.league = firstNonEmpty ((oakA :: [oakB]).map (fun t => t.league)) ∧
      r.social_facebook =
        firstNonEmpty ((oakA :: [oakB]).map (fun t => t.social_facebook)) ∧
      r.social_instagram =
        firstNonEmpty ((oakA :: [oakB]).map (fun t => t.social_instagram)) ∧
      r.contact_name = firstNonEmpty ((oakA :: [oakB]).map (fun t => t.contact_name)) ∧
      r.social_twitter = oakA.social_twitter ∧
      r.contact_role = oakA.contact_role ∧
      r.source_url = oakA.source_url ∧
      r.source_type = oakA.source_type ∧
      r.raw_data = oakA.raw_data :=
  C1_dedup_merge [oakA, oakB] "oak" oakA [oakB] (by decide) (by decide)

/-! ## Pipeline idempotence (C2) -/

/-- A field value is a fixed point of one guarded cleaning step. -/
def fieldFixed (g : String → String) (y : String) : Prop :=
  (if y ≠ "" then g y else "") = y

/-- A record that `clean_team` leaves unchanged, field by field. -/
def CleanFix (r : ScrapedTeam) : Prop :=
  pyStripS r.name = r.name ∧
  fieldFixed normalize_email r.email ∧
  fieldFixed normalize_phone r.phone ∧
  fieldFixed normalize_url r.website ∧
  fieldFixed pyStripS r.location ∧
  fieldFixed pyStripS r.league ∧
  fieldFixed pyStripS r.contact_name

theorem pyStripS_idem (s : String) : pyStripS (pyStripS s) = pyStripS s := by
  unfold pyStripS
  rw [show (String.mk (pyStrip s.data)).data = pyStrip s.data from rfl]
  rw [pyStrip_idem]

theorem fieldFixed_step (g : String → String) (x : String)
    (hg : ∀ y, g (g y) = g y) : fieldFixed g (if x ≠ "" then g x else "") := by
  unfold fieldFixed
  by_cases hx : x = ""
  · simp [hx]
  · by_cases hy : g x = ""
    · simp [hx, hy]
    · simp [hx, hy, hg x]

theorem clean_team_fix (t : ScrapedTeam)
    (hw : normalize_url ((clean_team t).website) = (clean_team t).website) :
    CleanFix (clean_team t) := by
  refine ⟨pyStripS_idem t.name,
    fieldFixed_step normalize_email t.email normalize_email_idem,
    fieldFixed_step normalize_phone t.phone normalize_phone_idem,
    ?_,
    fieldFixed_step pyStripS t.location pyStripS_idem,
    fieldFixed_step pyStripS t.league pyStripS_idem,
    fieldFixed_step pyStripS t.contact_name pyStripS_idem⟩
  unfold fieldFixed
  by_cases hy : (clean_team t).website = ""
  · simp [hy]
  · rw [if_pos (by simpa using hy), hw]

theorem clean_team_eq_self (r : ScrapedTeam) (h : CleanFix r) : clean_team r = r := by
  obtain ⟨f1, f2, f3, f4, f5, f6, f7⟩ := h
  unfold fieldFixed at f2 f3 f4 f5 f6 f7
  cases r
  simp only [clean_team, ScrapedTeam.mk.injEq, and_true, true_and]
  exact ⟨f1, f6, f5, f2, f3, f4, f7⟩

theorem mergeField_fix (g : String → String) (x y : String)
    (hx : fieldFixed g x) (hy : fieldFixed g y) :
    fieldFixed g (if x = "" ∧ y ≠ "" then y else x) := by
  by_cases h : x = "" ∧ y ≠ ""
  · rw [if_pos h]; exact hy
  · rw [if_neg h]; exact hx

theorem mergeTeam_fix (a b : ScrapedTeam) (ha : CleanFix a) (hb : CleanFix b) :
    CleanFix (mergeTeam a b) := by
  obtain ⟨a1, a2, a3, a4, a5, a6, a7⟩ := ha
  obtain ⟨b1, b2, b3, b4, b5, b6, b7⟩ := hb
  exact ⟨a1, mergeField_fix _ _ _ a2 b2, mergeField_fix _ _ _ a3 b3,
    mergeField_fix _ _ _ a4 b4, mergeField_fix _ _ _ a5 b5,
    mergeField_fix _ _ _ a6 b6, mergeField_fix _ _ _ a7 b7⟩

theorem updateSeen_values_fix (key : String) (t : ScrapedTeam)
    (seen : List (String × ScrapedTeam))
    (hseen : ∀ e ∈ seen, CleanFix e.2) (ht : CleanFix t) :
    ∀ e ∈ updateSeen key t seen, CleanFix e.2 := by
  intro e he
  rcases updateSeen_mem key t seen e he with h1 | ⟨v, hv1, hv2⟩
  · exact hseen e h1
  · rw [hv2]
    exact mergeTeam_fix v t (hseen (e.1, v) hv1) ht

theorem dedupGo_values_fix (l : List ScrapedTeam) :
    ∀ seen, (∀ e ∈ seen, CleanFix e.2) → (∀ t ∈ l, CleanFix t) →
    ∀ e ∈ dedupGo seen l, CleanFix e.2 := by
  induction l with
  | nil => intro seen hs _ e he; exact hs e he
  | cons t ts ih =>
    intro seen hs hl
    have ht : CleanFix t := hl t (by simp)
    have hts : ∀ t2 ∈ ts, CleanFix t2 := fun t2 h2 => hl t2 (List.mem_cons_of_mem _ h2)
    rw [dedupGo]
    by_cases hkey : normalize_name t.name = ""
    · rw [if_pos hkey]
      exact ih seen hs hts
    · rw [if_neg hkey]
      by_cases hmem : (lookupSeen (normalize_name t.name) seen).isSome
      · rw [if_pos hmem]
        exact ih _ (updateSeen_values_fix _ t seen hs ht) hts
      · rw [if_neg hmem]
        apply ih _ _ hts
        intro e he
        rcases List.mem_append.mp he with h1 | h1
        · exact hs e h1
        · simp only [List.mem_singleton] at h1
          rw [h1]
          exact ht

set_option maxHeartbeats 2000000 in
theorem dedupGo_distinct (l : List ScrapedTeam) :
    ∀ seen, (∀ t ∈ l, normalize_name t.name ≠ "") →
    (l.map (fun t => normalize_name t.name)).Nodup →
    (∀ t ∈ l, lookupSeen (normalize_name t.name) seen = none) →
    dedupGo seen l = seen ++ l.map (fun t => (normalize_name t.name, t)) := by
  induction l with
  | nil => intro seen _ _ _; simp [dedupGo]
  | cons t ts ih =>
    intro seen h1 h2 h3
    rw [dedupGo]
    rw [if_neg (by simpa using h1 t (by simp))]
    have hnone : lookupSeen (normalize_name t.name) seen = none := h3 t (by simp)
    rw [if_neg (by rw [hnone]; simp)]
    have hlook : ∀ t2 ∈ ts, lookupSeen (normalize_name t2.name)
        (seen ++ [(normalize_name t.name, t)]) = none := by
      intro t2 ht2
      have hne : ¬ normalize_name t2.name = normalize_name t.name := by
        intro hc
        simp only [List.map_cons, List.nodup_cons] at h2
        apply h2.1
        rw [← hc]
        exact List.mem_map_of_mem (fun t => normalize_name t.name) ht2
      rw [lookupSeen_append_none _ _ _ _ (h3 t2 (List.mem_cons_of_mem _ ht2)),
        if_neg hne]
    rw [ih (seen ++ [(normalize_name t.name, t)])
      (fun t2 ht2 => h1 t2 (List.mem_cons_of_mem _ ht2))
      (by simp only [List.map_cons, List.nodup_cons] at h2; exact h2.2)
      hlook]
    simp

theorem dedup_of_distinct (l : List ScrapedTeam)
    (h1 : ∀ t ∈ l, normalize_name t.name ≠ "")
    (h2 : (l.map (fun t => normalize_name t.name)).Nodup) :
    deduplicate_teams l = l := by
  unfold deduplicate_teams
  rw [dedupGo_distinct l [] h1 h2 (fun t _ => rfl)]
  rw [List.nil_append, List.map_map]
  have hcomp : (Prod.snd ∘ fun t : ScrapedTeam => (normalize_name t.name, t)) = id := rfl
  rw [hcomp, List.map_id]

/-- C2 counterexample: the full pipeline is not idempotent on every batch; a
record whose website is `"/"` is cleaned to website `"https:"` on the first
pass and to `"https://https:"` on the second. -/
theorem C2_counterexample :
    clean_and_deduplicate (clean_and_deduplicate [{ name := "Oak", website := "/" }]) ≠
      clean_and_deduplicate [{ name := "Oak", website := "/" }] := by decide

/-- C2 (amended): the full cleaning pipeline is idempotent on every batch in
which each record's cleaned website is a fixed point of URL normalization
(in particular whenever it is empty or keeps its scheme and has no trailing
whitespace); by the counterexample (website `"/"`) it is not idempotent
unconditionally. -/
theorem C2_pipeline_idempotent (teams : List ScrapedTeam)
    (H : ∀ t ∈ teams, normalize_url ((clean_team t).website) = (clean_team t).website) :
    clean_and_deduplicate (clean_and_deduplicate teams) = clean_and_deduplicate teams := by
  have hfixcl : ∀ t ∈ teams.map clean_team, CleanFix t := by
    intro x hx
    obtain ⟨t, ht, rfl⟩ := List.mem_map.mp hx
    exact clean_team_fix t (H t ht)
  have hinv : seenInv (dedupGo [] (teams.map clean_team)) :=
    dedupGo_inv _ [] ⟨by simp, by simp⟩
  have hvals : ∀ e ∈ dedupGo [] (teams.map clean_team), CleanFix e.2 :=
    dedupGo_values_fix _ [] (by simp) hfixcl
  have hfix : ∀ r ∈ deduplicate_teams (teams.map clean_team), CleanFix r := by
    intro r hr
    unfold deduplicate_teams at hr
    obtain ⟨e, he, rfl⟩ := List.mem_map.mp hr
    exact hvals e he
  have hmap : (deduplicate_teams (teams.map clean_team)).map clean_team =
      deduplicate_teams (teams.map clean_team) := by
    have hcongr : (deduplicate_teams (teams.map clean_team)).map clean_team =
        (deduplicate_teams (teams.map clean_team)).map id :=
      List.map_congr_left (fun r hr => clean_team_eq_self r (hfix r hr))
    rw [hcongr, List.map_id]
  have hkeys1 : ∀ r ∈ deduplicate_teams (teams.map clean_team),
      normalize_name r.name ≠ "" := by
    intro r hr
    unfold deduplicate_teams at hr
    obtain ⟨e, he, rfl⟩ := List.mem_map.mp hr
    have := hinv.1 e he
    rw [← this.1]
    exact this.2
  have hkeys2 : ((deduplicate_teams (teams.map clean_team)).map
      (fun r => normalize_name r.name)).Nodup := by
    have h1 : (deduplicate_teams (teams.map clean_team)).map
        (fun r => normalize_name r.name) =
        (dedupGo [] (teams.map clean_team)).map Prod.fst := by
      unfold deduplicate_teams
      rw [List.map_map]
      exact List.map_congr_left (fun e he => ((hinv.1 e he).1).symm)
    rw [h1]
    exact hinv.2
  show deduplicate_teams ((deduplicate_teams (teams.map clean_team)).map clean_team) =
    deduplicate_teams (teams.map clean_team)
  rw [hmap]
  exact dedup_of_distinct _ hkeys1 hkeys2

/-- Witness for C2: the amended idempotence applied to a concrete batch. -/
theorem C2_pipeline_idempotent_witness :
    clean_and_deduplicate (clean_and_deduplicate
        [oakA, oakB, { name := "Pine United", website := "pine.com/" }]) =
      clean_and_deduplicate
        [oakA, oakB, { name := "Pine United", website := "pine.com/" }] :=
  C2_pipeline_idempotent [oakA, oakB, { name := "Pine United", website := "pine.com/" }]
    (by decide)

/-! ## `src/data/email_validator.py` -/

/-- `EmailValidationResult` dataclass. -/
structure EmailValidationResult where
  email : String
  is_valid_format : Bool := false
  has_mx_record : Bool := false
  is_free_provider : Bool := false
  bounce_risk : ℚ := 1
  reason : String := ""
deriving DecidableEq, Repr

/-- `FREE_PROVIDERS`. -/
def FREE_PROVIDERS : List String :=
  ["gmail.com", "yahoo.com", "hotmail.com", "outlook.com", "aol.com",
   "icloud.com", "mail.com", "protonmail.com", "zoho.com", "yandex.com",
   "live.com", "msn.com", "gmx.com", "fastmail.com"]

/-- `DISPOSABLE_DOMAINS`. -/
def DISPOSABLE_DOMAINS : List String :=
  ["mailinator.com", "guerrillamail.com", "tempmail.com", "throwaway.email",
   "10minutemail.com", "trashmail.com", "fakeinbox.com"]

/-- Local-part characters of `EMAIL_REGEX`: `[a-zA-Z0-9._%+-]`. -/
def isLocalChar (c : Char) : Bool :=
  (48 ≤ c.toNat && c.toNat ≤ 57) || (65 ≤ c.toNat && c.toNat ≤ 90) ||
  (97 ≤ c.toNat && c.toNat ≤ 122) || c.toNat = 46 || c.toNat = 95 ||
  c.toNat = 37 || c.toNat = 43 || c.toNat = 45

/-- Domain characters of `EMAIL_REGEX`: `[a-zA-Z0-9.-]`. -/
def isDomainChar (c : Char) : Bool :=
  (48 ≤ c.toNat && c.toNat ≤ 57) || (65 ≤ c.toNat && c.toNat ≤ 90) ||
  (97 ≤ c.toNat && c.toNat ≤ 122) || c.toNat = 46 || c.toNat = 45

/-- ASCII letter (`[a-zA-Z]`). -/
def isAsciiAlpha (c : Char) : Bool :=
  (65 ≤ c.toNat && c.toNat ≤ 90) || (97 ≤ c.toNat && c.toNat ≤ 122)

/-- Python `str.split(sep)` for a one-character separator. -/
def splitOnChar (sep : Char) : List Char → List (List Char)
  | [] => [[]]
  | c :: rest =>
    if c = sep then [] :: splitOnChar sep rest
    else
      match splitOnChar sep rest with
      | [] => [[c]]
      | x :: xs => (c :: x) :: xs

/-- Match of the anchored domain part `[a-zA-Z0-9.-]+\.[a-zA-Z]{2,}$`:
the maximal trailing letter run has length at least 2 and is immediately
preceded by a dot with a non-empty domain-character prefix before it. -/
def domainOK (dom : List Char) : Bool :=
  let rev := dom.reverse
  2 ≤ (rev.takeWhile isAsciiAlpha).length &&
  (match rev.dropWhile isAsciiAlpha with
   | [] => false
   | c :: p => c = '.' && !p.isEmpty && p.all isDomainChar)

/-- `validate_email_format`: `EMAIL_REGEX.match(email.strip().lower())`,
the regex being `^[a-zA-Z0-9._%+-]+@[a-zA-Z0-9.-]+\.[a-zA-Z]{2,}$` (its
character classes exclude `@`, so a match is exactly one `@` with a valid
local part and domain). -/
def validate_email_format (email : String) : Bool :=
  match splitOnChar '@' (pyLower (pyStrip email.data)) with
  | [localPart, dom] => !localPart.isEmpty && localPart.all isLocalChar && domainOK dom
  | _ => false

/-- `email.split("@")[1]`. -/
def emailDomain (e : String) : String :=
  String.mk ((splitOnChar '@' e.data).getD 1 [])

/-- `validate_email`, with the DNS outcome of `check_mx_record` passed in as
the function `mxLookup` (a pure stand-in for the external dependency). -/
def validate_email (email : String) (mxLookup : String → Bool) :
    EmailValidationResult :=
  if !validate_email_format (pyLowerS (pyStripS email)) then
    { email := pyLowerS (pyStripS email), reason := "Invalid format",
      bounce_risk := 1 }
  else if emailDomain (pyLowerS (pyStripS email)) ∈ DISPOSABLE_DOMAINS then
    { email := pyLowerS (pyStripS email), is_valid_format := true,
      reason := "Disposable email domain", bounce_risk := 0.95 }
  else if !mxLookup (emailDomain (pyLowerS (pyStripS email))) then
    { email := pyLowerS (pyStripS email), is_valid_format := true,
      is_free_provider :=
        decide (emailDomain (pyLowerS (pyStripS email)) ∈ FREE_PROVIDERS),
      has_mx_record := false, bounce_risk := 0.9,
      reason := "No MX record found" }
  else if emailDomain (pyLowerS (pyStripS email)) ∈ FREE_PROVIDERS then
    { email := pyLowerS (pyStripS email), is_valid_format := true,
      is_free_provider := true, has_mx_record := true, bounce_risk := 0.3,
      reason := "Free email provider (less reliable for teams)" }
  else
    { email := pyLowerS (pyStripS email), is_valid_format := true,
      is_free_provider := false, has_mx_record := true, bounce_risk := 0.1,
      reason := "Valid business email" }

/-- C3 (confirmed): with the DNS outcome fixed as a parameter the validator
is a pure function (so repeated calls agree), and its bounce risk follows
the claimed short-circuit order: 1.0 on format failure, 0.95 on a
disposable domain, else 0.9 without MX, 0.3 with MX on a free provider and
0.1 with MX elsewhere; in particular the four spec examples hold. -/
theorem C3_validate_email :
    (∀ (email : String) (mxLookup : String → Bool),
      (validate_email email mxLookup).bounce_risk =
        (if !validate_email_format (pyLowerS (pyStripS email)) then 1
         else if emailDomain (pyLowerS (pyStripS email)) ∈ DISPOSABLE_DOMAINS then 0.95
         else if !mxLookup (emailDomain (pyLowerS (pyStripS email))) then 0.9
         else if emailDomain (pyLowerS (pyStripS email)) ∈ FREE_PROVIDERS then 0.3
         else 0.1)) ∧
    (∀ mxLookup, (validate_email "not-an-email" mxLookup).bounce_risk = 1) ∧
    (∀ mxLookup, (validate_email "user@mailinator.com" mxLookup).bounce_risk = 0.95) ∧
    (validate_email "user@gmail.com" (fun _ => true)).bounce_risk = 0.3 ∧
    (validate_email "user@company.com" (fun _ => true)).bounce_risk = 0.1 := by
  refine ⟨?_, ?_, ?_, ?_, ?_⟩
  · intro email mxLookup
    unfold validate_email
    split_ifs <;> rfl
  · intro mxLookup
    unfold validate_email
    rw [if_pos (by decide)]
  · intro mxLookup
    unfold validate_email
    rw [if_neg (by decide), if_pos (by decide)]
  · rfl
  · rfl

/-! ## `src/segmentation/classifier.py` -/

/-- Result dict of `classify_lead` / `_fallback_classification`. -/
structure ClassificationResult where
  team_type : String
  competitive_level : String
  buying_potential : String
  custom_kit_likelihood : ℚ
  reasoning : String
deriving DecidableEq, Repr

/-- Python `kw in txt` (substring containment). -/
def containsSub (kw txt : String) : Bool := listContainsSub kw.data txt.data

/-- `any(kw in txt for kw in kws)`. -/
def anyKwIn (kws : List String) (txt : String) : Bool :=
  kws.any (fun kw => containsSub kw txt)

/-- `league.lower() if league else ""`. -/
def leagueLower (league : String) : String :=
  if league ≠ "" then pyLowerS league else ""

/-- The team-type if/elif chain of `_fallback_classification`: note that only
the sunday_league keyword set also consults the league text. -/
def fallbackTeamType (team_name league : String) : String :=
  if anyKwIn ["academy", "development", "school"] (pyLowerS team_name) then "academy"
  else if anyKwIn ["youth", "junior", "u12", "u14", "u16", "u18", "u21", "boys", "girls"]
      (pyLowerS team_name) then "youth"
  else if (["sunday", "recreational", "social"].any (fun kw =>
      containsSub kw (pyLowerS team_name) || containsSub kw (leagueLower league))) then
    "sunday_league"
  else if anyKwIn ["semi-pro", "semipro", "semi pro"] (pyLowerS team_name) then "semi_pro"
  else "amateur"

/-- The competitive-level chain of `_fallback_classification`. -/
def fallbackCompLevel (tt league : String) : String :=
  if tt = "academy" ∨ tt = "semi_pro" then "competitive"
  else if tt = "youth" then "competitive"
  else if anyKwIn ["premier", "championship", "division 1", "elite"]
      (leagueLower league) then "competitive"
  else "recreational"

/-- The buying-potential chain of `_fallback_classification`. -/
def fallbackBuying (tt : String) : String :=
  if tt = "academy" ∨ tt = "semi_pro" then "high"
  else if tt = "sunday_league" then "medium"
  else "medium"

/-- The kit-likelihood chain of `_fallback_classification`. -/
def fallbackKit (tt : String) : ℚ :=
  if tt = "academy" then 0.8
  else if tt = "youth" then 0.7
  else if tt = "sunday_league" then 0.4
  else 0.5

/-- `_fallback_classification` (the deterministic rule engine used whenever
the AI credential is missing or the AI call fails). -/
def fallback_classification (team_name league : String) : ClassificationResult :=
  { team_type := fallbackTeamType team_name league
    competitive_level := fallbackCompLevel (fallbackTeamType team_name league) league
    buying_potential := fallbackBuying (fallbackTeamType team_name league)
    custom_kit_likelihood := fallbackKit (fallbackTeamType team_name league)
    reasoning := "Rule-based classification (OpenAI unavailable). Detected type: "
      ++ fallbackTeamType team_name league }

/-- The team-type rule as the claim words it: every keyword set matched
against the team name or the league. -/
def fallbackTeamTypeClaim (team_name league : String) : String :=
  if (["academy", "development", "school"].any (fun kw =>
      containsSub kw (pyLowerS team_name) || containsSub kw (leagueLower league))) then
    "academy"
  else if (["youth", "junior", "u12", "u14", "u16", "u18", "u21", "boys", "girls"].any
      (fun kw => containsSub kw (pyLowerS team_name) ||
        containsSub kw (leagueLower league))) then "youth"
  else if (["sunday", "recreational", "social"].any (fun kw =>
      containsSub kw (pyLowerS team_name) || containsSub kw (leagueLower league))) then
    "sunday_league"
  else if (["semi-pro", "semipro", "semi pro"].any (fun kw =>
      containsSub kw (pyLowerS team_name) || containsSub kw (leagueLower league))) then
    "semi_pro"
  else "amateur"

/-- C4 counterexample: the claim reads the keyword match as being against
the team name or league, but the code consults the league only for the
sunday_league set — a league containing "academy" does not make the team an
academy. -/
theorem C4_counterexample :
    (fallback_classification "Alpha" "academy premier").team_type = "amateur" ∧
    fallbackTeamTypeClaim "Alpha" "academy premier" = "academy" ∧
    (fallback_classification "Alpha" "academy premier").team_type ≠
      fallbackTeamTypeClaim "Alpha" "academy premier" := by
  refine ⟨by rfl, by rfl, ?_⟩
  intro h
  rw [show (fallback_classification "Alpha" "academy premier").team_type = "amateur"
    from rfl] at h
  rw [show fallbackTeamTypeClaim "Alpha" "academy premier" = "academy" from rfl] at h
  exact absurd h (by decide)

/-- C4 (amended): the fallback classifier matches the exact keyword sets
with precedence academy > youth > sunday_league > semi_pro > amateur, where
academy/youth/semi_pro keywords are matched against the team name only and
only the sunday_league keywords are also matched against the league; buying
potential is high exactly for academy and semi_pro (else medium); kit
likelihood is 0.8/0.7/0.4/0.5 for academy/youth/sunday_league/other; and
"Riverside Academy U16" with empty league is an academy with high buying
potential and kit likelihood 0.8. -/
theorem C4_fallback_classifier :
    (∀ (team_name league : String),
      ((fallback_classification team_name league).team_type = "academy" ↔
        anyKwIn ["academy", "development", "school"] (pyLowerS team_name) = true) ∧
      ((fallback_classification team_name league).team_type = "youth" ↔
        (anyKwIn ["academy", "development", "school"] (pyLowerS team_name) = false ∧
         anyKwIn ["youth", "junior", "u12", "u14", "u16", "u18", "u21", "boys", "girls"]
           (pyLowerS team_name) = true)) ∧
      ((fallback_classification team_name league).team_type = "sunday_league" ↔
        (anyKwIn ["academy", "development", "school"] (pyLowerS team_name) = false ∧
         anyKwIn ["youth", "junior", "u12", "u14", "u16", "u18", "u21", "boys", "girls"]
           (pyLowerS team_name) = false ∧
         (["sunday", "recreational", "social"].any (fun kw =>
           containsSub kw (pyLowerS team_name) ||
           containsSub kw (leagueLower league))) = true)) ∧
      ((fallback_classification team_name league).team_type = "semi_pro" ↔
        (anyKwIn ["academy", "development", "school"] (pyLowerS team_name) = false ∧
         anyKwIn ["youth", "junior", "u12", "u14", "u16", "u18", "u21", "boys", "girls"]
           (pyLowerS team_name) = false ∧
         (["sunday", "recreational", "social"].any (fun kw =>
           containsSub kw (pyLowerS team_name) ||
           containsSub kw (leagueLower league))) = false ∧
         anyKwIn ["semi-pro", "semipro", "semi pro"] (pyLowerS team_name) = true)) ∧
      ((fallback_classification team_name league).team_type = "amateur" ↔
        (anyKwIn ["academy", "development", "school"] (pyLowerS team_name) = false ∧
         anyKwIn ["youth", "junior", "u12", "u14", "u16", "u18", "u21", "boys", "girls"]
           (pyLowerS team_name) = false ∧
         (["sunday", "recreational", "social"].any (fun kw =>
           containsSub kw (pyLowerS team_name) ||
           containsSub kw (leagueLower league))) = false ∧
         anyKwIn ["semi-pro", "semipro", "semi pro"] (pyLowerS team_name) = false)) ∧
      ((fallback_classification team_name league).buying_potential =
        (if (fallback_classification team_name league).team_type = "academy" ∨
            (fallback_classification team_name league).team_type = "semi_pro"
         then "high" else "medium")) ∧
      ((fallback_classification team_name league).custom_kit_likelihood =
        (if (fallback_classification team_name league).team_type = "academy" then 0.8
         else if (fallback_classification team_name league).team_type = "youth" then 0.7
         else if (fallback_classification team_name league).team_type = "sunday_league"
           then 0.4
         else 0.5))) ∧
    (fallback_classification "Riverside Academy U16" "").team_type = "academy" ∧
    (fallback_classification "Riverside Academy U16" "").buying_potential = "high" ∧
    (fallback_classification "Riverside Academy U16" "").custom_kit_likelihood = 0.8 := by
  refine ⟨?_, by rfl, by rfl, by rfl⟩
  intro n l
  show ((fallbackTeamType n l = "academy" ↔ _) ∧ (fallbackTeamType n l = "youth" ↔ _) ∧
    (fallbackTeamType n l = "sunday_league" ↔ _) ∧ (fallbackTeamType n l = "semi_pro" ↔ _) ∧
    (fallbackTeamType n l = "amateur" ↔ _) ∧
    (fallbackBuying (fallbackTeamType n l) = _) ∧ (fallbackKit (fallbackTeamType n l) = _))
  by_cases h1 : anyKwIn ["academy", "development", "school"] (pyLowerS n) = true
  · simp [fallback_classification, fallbackTeamType, fallbackBuying, fallbackKit, h1]
  · rw [Bool.not_eq_true] at h1
    by_cases h2 : anyKwIn ["youth", "junior", "u12", "u14", "u16", "u18", "u21",
        "boys", "girls"] (pyLowerS n) = true
    · simp [fallback_classification, fallbackTeamType, fallbackBuying, fallbackKit, h1, h2]
    · rw [Bool.not_eq_true] at h2
      by_cases h3 : (["sunday", "recreational", "social"].any (fun kw =>
          containsSub kw (pyLowerS n) || containsSub kw (leagueLower l))) = true
      · simp [fallback_classification, fallbackTeamType, fallbackBuying, fallbackKit, h1, h2, h3]
      · rw [Bool.not_eq_true] at h3
        by_cases h4 : anyKwIn ["semi-pro", "semipro", "semi pro"] (pyLowerS n) = true
        · simp [fallback_classification, fallbackTeamType, fallbackBuying, fallbackKit, h1, h2, h3, h4]
        · rw [Bool.not_eq_true] at h4
          simp [fallback_classification, fallbackTeamType, fallbackBuying, fallbackKit, h1, h2, h3, h4]

/-! ## `src/outreach/campaign_manager.py` -/

/-- A row of the `leads` table: the columns `get_eligible_leads` consults;
nullable columns are `Option` (src/database/models.py). -/
structure LeadRecord where
  team_name : String := ""
  league : Option String := none
  location : Option String := none
  contact_name : Option String := none
  contact_email : Option String := none
  contact_phone : Option String := none
  team_type : Option String := none
  competitive_level : Option String := none
  buying_potential : Option String := none
  status : Option String := some "new"
deriving DecidableEq, Repr

/-- SQL `col != v` under three-valued logic: a NULL column fails the test. -/
def sqlNe (col : Option String) (v : String) : Bool :=
  match col with
  | some s => s ≠ v
  | none => false

/-- SQL `col == v` under three-valued logic. -/
def sqlEq (col : Option String) (v : String) : Bool :=
  match col with
  | some s => s = v
  | none => false

/-- The segment-filter dict; an absent key (or None value) is `none`. -/
structure SegmentFilter where
  team_type : Option String := none
  competitive_level : Option String := none
  buying_potential : Option String := none
  status : Option String := none
deriving DecidableEq, Repr

/-- One `if segment_filter.get(key): query.filter(col == value)` step; the
Python truthiness test skips an empty-string value. -/
def applyFilter (fv : Option String) (get : LeadRecord → Option String)
    (q : List LeadRecord) : List LeadRecord :=
  match fv with
  | some v => if v ≠ "" then q.filter (fun l => sqlEq (get l) v) else q
  | none => q

/-- The channel contact-info filters: email and sms require their address
column to be non-NULL and non-empty; any other channel adds no filter. -/
def channelFilter (channel : String) (leads : List LeadRecord) : List LeadRecord :=
  if channel = "email" then
    (leads.filter (fun l => l.contact_email.isSome)).filter
      (fun l => sqlNe l.contact_email "")
  else if channel = "sms" then
    (leads.filter (fun l => l.contact_phone.isSome)).filter
      (fun l => sqlNe l.contact_phone "")
  else leads

/-- `get_eligible_leads` over an in-memory table. -/
def get_eligible_leads (leads : List LeadRecord) (channel : String)
    (segment_filter : Option SegmentFilter) : List LeadRecord :=
  match segment_filter with
  | none => (channelFilter channel leads).filter (fun l => sqlNe l.status "unsubscribed")
  | some sf =>
    applyFilter sf.status (fun l => l.status)
      (applyFilter sf.buying_potential (fun l => l.buying_potential)
        (applyFilter sf.competitive_level (fun l => l.competitive_level)
          (applyFilter sf.team_type (fun l => l.team_type)
            ((channelFilter channel leads).filter
              (fun l => sqlNe l.status "unsubscribed")))))

/-- The channel's hard contact requirement as a predicate. -/
def addrOK (channel : String) (l : LeadRecord) : Bool :=
  if channel = "email" then l.contact_email.isSome && sqlNe l.contact_email ""
  else if channel = "sms" then l.contact_phone.isSome && sqlNe l.contact_phone ""
  else true

/-- One filter predicate as the code applies it: a present non-empty value
is an exact-match test, an absent or empty value is skipped. -/
def fieldMatch (fv : Option String) (col : Option String) : Bool :=
  match fv with
  | some v => if v ≠ "" then sqlEq col v else true
  | none => true

/-- Conjunction of the four segment predicates as the code applies them. -/
def segMatches (sf : Option SegmentFilter) (l : LeadRecord) : Bool :=
  match sf with
  | none => true
  | some sf =>
    fieldMatch sf.team_type l.team_type &&
    fieldMatch sf.competitive_level l.competitive_level &&
    fieldMatch sf.buying_potential l.buying_potential &&
    fieldMatch sf.status l.status

theorem mem_applyFilter (fv : Option String) (get : LeadRecord → Option String)
    (q : List LeadRecord) (l : LeadRecord) :
    l ∈ applyFilter fv get q ↔ l ∈ q ∧ fieldMatch fv (get l) = true := by
  cases fv with
  | none => simp [applyFilter, fieldMatch]
  | some v =>
    by_cases hv : v = ""
    · simp [applyFilter, fieldMatch, hv]
    · simp [applyFilter, fieldMatch, hv, List.mem_filter]

theorem mem_channelFilter (channel : String) (leads : List LeadRecord)
    (l : LeadRecord) :
    l ∈ channelFilter channel leads ↔ l ∈ leads ∧ addrOK channel l = true := by
  unfold channelFilter addrOK
  by_cases he : channel = "email"
  · rw [if_pos he, if_pos he]
    simp only [List.mem_filter, Bool.and_eq_true, and_assoc]
    try tauto
  · rw [if_neg he, if_neg he]
    by_cases hs : channel = "sms"
    · rw [if_pos hs, if_pos hs]
      simp only [List.mem_filter, Bool.and_eq_true, and_assoc]
      try tauto
    · rw [if_neg hs, if_neg hs]
      simp

theorem mem_eligible (leads : List LeadRecord) (channel : String)
    (sf : Option SegmentFilter) (l : LeadRecord) :
    l ∈ get_eligible_leads leads channel sf ↔
      l ∈ leads ∧ addrOK channel l = true ∧
      sqlNe l.status "unsubscribed" = true ∧ segMatches sf l = true := by
  cases sf with
  | none =>
    simp [get_eligible_leads, List.mem_filter, mem_channelFilter, segMatches, and_assoc]
  | some sf =>
    simp only [get_eligible_leads, mem_applyFilter, List.mem_filter,
      mem_channelFilter, segMatches]
    constructor
    · rintro ⟨⟨⟨⟨⟨⟨hm, haddr⟩, hst⟩, h1⟩, h2⟩, h3⟩, h4⟩
      exact ⟨hm, haddr, hst, by rw [h1, h2, h3, h4]; rfl⟩
    · rintro ⟨hm, haddr, hst, hseg⟩
      simp only [Bool.and_eq_true] at hseg
      exact ⟨⟨⟨⟨⟨⟨hm, haddr⟩, hst⟩, hseg.1.1.1⟩, hseg.1.1.2⟩, hseg.1.2⟩, hseg.2⟩

/-- The eligibility predicate exactly as the claim words it: the
channel-required address field non-empty, status not unsubscribed, and every
predicate PRESENT in the filter (even an empty-string one) an exact match. -/
def eligibleClaimCheck (channel : String) (sf : Option SegmentFilter)
    (l : LeadRecord) : Bool :=
  (if channel = "email" then
    (match l.contact_email with
     | some e => e ≠ ""
     | none => false)
   else
    (match l.contact_phone with
     | some p => p ≠ ""
     | none => false)) &&
  !(l.status == some "unsubscribed") &&
  (match sf with
   | none => true
   | some sf =>
     (match sf.team_type with
      | some v => l.team_type == some v
      | none => true) &&
     (match sf.competitive_level with
      | some v => l.competitive_level == some v
      | none => true) &&
     (match sf.buying_potential with
      | some v => l.buying_potential == some v
      | none => true) &&
     (match sf.status with
      | some v => l.status == some v
      | none => true))

/-- A concrete lead used in the eligibility counterexample and witnesses. -/
def leadAcademy : LeadRecord :=
  { team_name := "Oak", contact_email := some "a@b.co",
    team_type := some "academy", status := some "new" }

/-- C5 counterexample: a filter whose `team_type` key is present with the
empty-string value is ignored by the code (Python truthiness), so a lead
whose team_type differs from the present predicate is still returned,
refuting the claimed iff. -/
theorem C5_counterexample :
    leadAcademy ∈ get_eligible_leads [leadAcademy] "email"
      (some { team_type := some "" }) ∧
    eligibleClaimCheck "email" (some { team_type := some "" }) leadAcademy = false := by
  decide

/-- C5 (amended): for the email and sms channels, a lead is returned iff it
is in the table, its channel-required address column is non-NULL and
non-empty, its status column is non-NULL and differs from `unsubscribed`
(SQL three-valued logic), and every filter predicate that is present WITH A
NON-EMPTY VALUE equals the lead's column; predicates that are absent or
present with an empty value are skipped, and an absent filter imposes only
the hard requirements. -/
theorem C5_eligibility (leads : List LeadRecord) (channel : String)
    (sf : Option SegmentFilter) (l : LeadRecord)
    (hch : channel = "email" ∨ channel = "sms") :
    l ∈ get_eligible_leads leads channel sf ↔
      l ∈ leads ∧ addrOK channel l = true ∧
      sqlNe l.status "unsubscribed" = true ∧ segMatches sf l = true := by
  rcases hch with h | h <;> exact mem_eligible leads channel sf l

/-- Witness for C5: the amended eligibility applied at a concrete lead,
channel and filter. -/
theorem C5_eligibility_witness :
    leadAcademy ∈ get_eligible_leads [leadAcademy] "email"
        (some { team_type := some "academy" }) ↔
      leadAcademy ∈ [leadAcademy] ∧ addrOK "email" leadAcademy = true ∧
      sqlNe leadAcademy.status "unsubscribed" = true ∧
      segMatches (some { team_type := some "academy" }) leadAcademy = true :=
  C5_eligibility [leadAcademy] "email" (some { team_type := some "academy" })
    leadAcademy (Or.inl rfl)

/-- A concrete lead with no contact information at all. -/
def leadNoContact : LeadRecord :=
  { team_name := "Elm", contact_email := none, contact_phone := none,
    status := some "new" }

/-- C10 (confirmed): for any channel other than email and sms the
eligibility query applies no contact-field requirement: a lead is returned
iff it is in the table, its status passes the not-unsubscribed filter, and
it matches the segment filter — leads with neither email nor phone
included. -/
theorem C10_other_channel (leads : List LeadRecord) (channel : String)
    (sf : Option SegmentFilter) (l : LeadRecord)
    (h1 : channel ≠ "email") (h2 : channel ≠ "sms") :
    l ∈ get_eligible_leads leads channel sf ↔
      l ∈ leads ∧ sqlNe l.status "unsubscribed" = true ∧ segMatches sf l = true := by
  rw [mem_eligible leads channel sf l]
  unfold addrOK
  rw [if_neg h1, if_neg h2]
  simp

/-- Witness for C10: the channel `"push"` returns a lead that has neither
email nor phone. -/
theorem C10_other_channel_witness :
    leadNoContact ∈ get_eligible_leads [leadNoContact] "push" none ↔
      leadNoContact ∈ [leadNoContact] ∧
      sqlNe leadNoContact.status "unsubscribed" = true ∧
      segMatches none leadNoContact = true :=
  C10_other_channel [leadNoContact] "push" none leadNoContact
    (by decide) (by decide)

/-! ## `src/outreach/template_engine.py` -/

/-- Opening brace character. -/
def lbrace : Char := Char.ofNat 123

/-- Closing brace character. -/
def rbrace : Char := Char.ofNat 125

/-- The `\x7bkey\x7d` placeholder for a key. -/
def placeholder (k : String) : List Char := lbrace :: k.data ++ [rbrace]

/-- Worker for `replaceAll`: a positive skip counter means we are emitting
nothing while passing over the matched pattern occurrence. -/
def replaceGo (p : Char) (ps rep : List Char) : Nat → List Char → List Char
  | _, [] => []
  | k + 1, _ :: rest => replaceGo p ps rep k rest
  | 0, c :: rest =>
    if c = p ∧ listStartsWith ps rest then
      rep ++ replaceGo p ps rep ps.length rest
    else c :: replaceGo p ps rep 0 rest

/-- Python `str.replace(pat, rep)`: non-overlapping left-to-right
replacement, resuming after each replacement (for the non-empty patterns
used by the template engine; an empty pattern is returned unchanged). -/
def replaceAll (pat rep txt : List Char) : List Char :=
  match pat with
  | [] => txt
  | p :: ps => replaceGo p ps rep 0 txt

/-- Worker for `stripPlaceholders`: `buf` holds (reversed) a pending
candidate that started with `\x7b` and has not yet seen `\x7d`. -/
def stripGo (buf : List Char) : List Char → List Char
  | [] => buf.reverse
  | c :: rest =>
    if buf.isEmpty then
      if c.toNat = 123 then stripGo [c] rest
      else c :: stripGo [] rest
    else
      if c.toNat = 125 then
        if 2 ≤ buf.length then stripGo [] rest
        else buf.reverse ++ c :: stripGo [] rest
      else stripGo (c :: buf) rest

/-- `re.sub(r"\x5c\x7b[^\x7d]+\x7d", "", ·)`: drop every remaining
brace-delimited placeholder with non-empty body. -/
def stripPlaceholders (l : List Char) : List Char := stripGo [] l

/-- `fill_template`: sequentially replace each `\x7bkey\x7d` with
`value or "there"` (so an empty value substitutes as `"there"`), then default
the contact-name placeholder to `"there"` and the team-name placeholder to
`"your team"`, then remove any remaining placeholder. -/
def fill_template (template : String) (vars : List (String × String)) : String :=
  String.mk (stripPlaceholders
    (replaceAll (placeholder "team_name") "your team".data
      (replaceAll (placeholder "contact_name") "there".data
        (vars.foldl (fun acc kv =>
            replaceAll (placeholder kv.1)
              (if kv.2 = "" then "there".data else kv.2.data) acc)
          template.data))))

/-- `fill` as the claim words it: each placeholder replaced by the
variable's own string value (also when empty), then the two defaults, then
removal of remaining placeholders. -/
def fillClaimSpec (template : String) (vars : List (String × String)) : String :=
  String.mk (stripPlaceholders
    (replaceAll (placeholder "team_name") "your team".data
      (replaceAll (placeholder "contact_name") "there".data
        (vars.foldl (fun acc kv => replaceAll (placeholder kv.1) kv.2.data acc)
          template.data))))

/-- C7 counterexample: a variable present with the empty string is
substituted as `"there"` (Python `value or "there"`), not as its own value —
on the template consisting of the league placeholder the code yields
`"there"` where the claim demands `""`. -/
theorem C7_counterexample :
    fill_template (String.mk (placeholder "league")) [("league", "")] = "there" ∧
    fillClaimSpec (String.mk (placeholder "league")) [("league", "")] = "" ∧
    fill_template (String.mk (placeholder "league")) [("league", "")] ≠
      fillClaimSpec (String.mk (placeholder "league")) [("league", "")] := by
  decide

/-- C7 (amended): `fill_template` behaves exactly as the claim describes
except that a variable whose value is empty is substituted as `"there"`:
it equals the claim's fill applied to the vars with every empty value
replaced by `"there"`. -/
theorem C7_fill (template : String) (vars : List (String × String)) :
    fill_template template vars =
      fillClaimSpec template
        (vars.map (fun kv => (kv.1, if kv.2 = "" then "there" else kv.2))) := by
  have hfold : (vars.map (fun kv =>
      (kv.1, if kv.2 = "" then "there" else kv.2))).foldl
        (fun acc kv => replaceAll (placeholder kv.1) kv.2.data acc) template.data =
      vars.foldl (fun acc kv =>
        replaceAll (placeholder kv.1)
          (if kv.2 = "" then "there".data else kv.2.data) acc) template.data := by
    rw [List.foldl_map]
    congr 1
    funext acc kv
    by_cases h : kv.2 = "" <;> simp [h]
  unfold fill_template fillClaimSpec
  rw [hfold]

/-! ## `src/outreach/email_sender.py` and `src/outreach/sms_sender.py` -/

/-- `EmailResult` dataclass. -/
structure EmailResult where
  to_email : String
  success : Bool
  status_code : Nat := 0
  error : String := ""
deriving DecidableEq, Repr

/-- `SMSResult` dataclass. -/
structure SMSResult where
  to_phone : String
  success : Bool
  sid : String := ""
  error : String := ""
deriving DecidableEq, Repr

/-- `recipient.get(key, "")` on a recipient dict. -/
def dget (r : List (String × String)) (k : String) : String :=
  match r.lookup k with
  | some v => v
  | none => ""

/-- The personalization loop
`for key, value in recipient.items(): s = s.replace("\x7b"+key+"\x7d", str(value))`. -/
def personalize (r : List (String × String)) (s : List Char) : List Char :=
  r.foldl (fun acc kv => replaceAll (placeholder kv.1) kv.2.data acc) s

/-- Observable trace of one email batch run: the per-recipient result list,
the `on_progress` invocations `(completed, total, last_result)` in order,
and the argument tuples of each network-level `send_email` call.  The
`rate_limit` sleep is real time and is not modelled. -/
structure EmailBatchTrace where
  results : List EmailResult
  progress : List (Nat × Nat × EmailResult)
  calls : List (String × String × String × String)
deriving DecidableEq, Repr

/-- The loop of `send_emails_batch`; `sendOne` is the `send_email`
collaborator (to_email, to_name, subject, body) and `i` the `enumerate`
index.  A recipient with an empty `email` is recorded as a failure, makes
no send call, and (because of the `continue`) triggers no progress
callback. -/
def send_emails_batch_go (sendOne : String → String → String → String → EmailResult)
    (subject body : List Char) (total : Nat) :
    Nat → List (List (String × String)) → EmailBatchTrace
  | _, [] => ⟨[], [], []⟩
  | i, r :: rest =>
    if dget r "email" = "" then
      ⟨{ to_email := "", success := false, error := "No email" } ::
          (send_emails_batch_go sendOne subject body total (i + 1) rest).results,
        (send_emails_batch_go sendOne subject body total (i + 1) rest).progress,
        (send_emails_batch_go sendOne subject body total (i + 1) rest).calls⟩
    else
      ⟨sendOne (dget r "email") (dget r "name")
          (String.mk (personalize r subject)) (String.mk (personalize r body)) ::
          (send_emails_batch_go sendOne subject body total (i + 1) rest).results,
        (i + 1, total,
          sendOne (dget r "email") (dget r "name")
            (String.mk (personalize r subject)) (String.mk (personalize r body))) ::
          (send_emails_batch_go sendOne subject body total (i + 1) rest).progress,
        (dget r "email", dget r "name", String.mk (personalize r subject),
          String.mk (personalize r body)) ::
          (send_emails_batch_go sendOne subject body total (i + 1) rest).calls⟩

/-- `send_emails_batch` over its recipient dicts. -/
def send_emails_batch (sendOne : String → String → String → String → EmailResult)
    (recipients : List (List (String × String))) (subject body_template : String) :
    EmailBatchTrace :=
  send_emails_batch_go sendOne subject.data body_template.data recipients.length
    0 recipients

/-- Observable trace of one SMS batch run. -/
structure SMSBatchTrace where
  results : List SMSResult
  progress : List (Nat × Nat × SMSResult)
  calls : List (String × String)
deriving DecidableEq, Repr

/-- The loop of `send_sms_batch`; `sendOne` is the `send_sms` collaborator
(to_phone, body). -/
def send_sms_batch_go (sendOne : String → String → SMSResult)
    (body : List Char) (total : Nat) :
    Nat → List (List (String × String)) → SMSBatchTrace
  | _, [] => ⟨[], [], []⟩
  | i, r :: rest =>
    if dget r "phone" = "" then
      ⟨{ to_phone := "", success := false, error := "No phone" } ::
          (send_sms_batch_go sendOne body total (i + 1) rest).results,
        (send_sms_batch_go sendOne body total (i + 1) rest).progress,
        (send_sms_batch_go sendOne body total (i + 1) rest).calls⟩
    else
      ⟨sendOne (dget r "phone") (String.mk (personalize r body)) ::
          (send_sms_batch_go sendOne body total (i + 1) rest).results,
        (i + 1, total, sendOne (dget r "phone") (String.mk (personalize r body))) ::
          (send_sms_batch_go sendOne body total (i + 1) rest).progress,
        (dget r "phone", String.mk (personalize r body)) ::
          (send_sms_batch_go sendOne body total (i + 1) rest).calls⟩

/-- `send_sms_batch` over its recipient dicts. -/
def send_sms_batch (sendOne : String → String → SMSResult)
    (recipients : List (List (String × String))) (body_template : String) :
    SMSBatchTrace :=
  send_sms_batch_go sendOne body_template.data recipients.length 0 recipients

theorem email_go_len (sendOne : String → String → String → String → EmailResult)
    (s b : List Char) (total : Nat) :
    ∀ (rs : List (List (String × String))) (i : Nat),
    (send_emails_batch_go sendOne s b total i rs).results.length = rs.length := by
  intro rs
  induction rs with
  | nil => intro i; rfl
  | cons r rest ih =>
    intro i
    rw [send_emails_batch_go]
    by_cases h : dget r "email" = ""
    · rw [if_pos h]
      simp only [List.length_cons, ih]
    · rw [if_neg h]
      simp only [List.length_cons, ih]

theorem sms_go_len (sendOne : String → String → SMSResult)
    (b : List Char) (total : Nat) :
    ∀ (rs : List (List (String × String))) (i : Nat),
    (send_sms_batch_go sendOne b total i rs).results.length = rs.length := by
  intro rs
  induction rs with
  | nil => intro i; rfl
  | cons r rest ih =>
    intro i
    rw [send_sms_batch_go]
    by_cases h : dget r "phone" = ""
    · rw [if_pos h]
      simp only [List.length_cons, ih]
    · rw [if_neg h]
      simp only [List.length_cons, ih]

theorem email_go_skip (sendOne : String → String → String → String → EmailResult)
    (s b : List Char) (total : Nat) :
    ∀ (rs : List (List (String × String))) (i j : Nat),
    dget (rs.getD j []) "email" = "" → j < rs.length →
    (send_emails_batch_go sendOne s b total i rs).results.getD j
        { to_email := "", success := true } =
      { to_email := "", success := false, status_code := 0, error := "No email" } := by
  intro rs
  induction rs with
  | nil =>
    intro i j _ hj
    simp at hj
  | cons r rest ih =>
    intro i j hget hj
    rw [send_emails_batch_go]
    cases j with
    | zero =>
      simp only [List.getD_cons_zero] at hget
      rw [if_pos hget]
      rfl
    | succ j2 =>
      simp only [List.getD_cons_succ] at hget
      have hj2 : j2 < rest.length := by simp only [List.length_cons] at hj; omega
      by_cases h : dget r "email" = ""
      · rw [if_pos h]
        simpa using ih (i + 1) j2 hget hj2
      · rw [if_neg h]
        simpa using ih (i + 1) j2 hget hj2

theorem sms_go_skip (sendOne : String → String → SMSResult)
    (b : List Char) (total : Nat) :
    ∀ (rs : List (List (String × String))) (i j : Nat),
    dget (rs.getD j []) "phone" = "" → j < rs.length →
    (send_sms_batch_go sendOne b total i rs).results.getD j
        { to_phone := "", success := true } =
      { to_phone := "", success := false, sid := "", error := "No phone" } := by
  intro rs
  induction rs with
  | nil =>
    intro i j _ hj
    simp at hj
  | cons r rest ih =>
    intro i j hget hj
    rw [send_sms_batch_go]
    cases j with
    | zero =>
      simp only [List.getD_cons_zero] at hget
      rw [if_pos hget]
      rfl
    | succ j2 =>
      simp only [List.getD_cons_succ] at hget
      have hj2 : j2 < rest.length := by simp only [List.length_cons] at hj; omega
      by_cases h : dget r "phone" = ""
      · rw [if_pos h]
        simpa using ih (i + 1) j2 hget hj2
      · rw [if_neg h]
        simpa using ih (i + 1) j2 hget hj2

theorem email_go_calls (sendOne : String → String → String → String → EmailResult)
    (s b : List Char) (total : Nat) :
    ∀ (rs : List (List (String × String))) (i : Nat),
    (send_emails_batch_go sendOne s b total i rs).calls.length =
      (rs.filter (fun r => dget r "email" ≠ "")).length := by
  intro rs
  induction rs with
  | nil => intro i; rfl
  | cons r rest ih =>
    intro i
    rw [send_emails_batch_go]
    by_cases h : dget r "email" = ""
    · rw [if_pos h, List.filter_cons_of_neg (by simpa using h)]
      exact ih (i + 1)
    · rw [if_neg h, List.filter_cons_of_pos (by simpa using h)]
      simp only [List.length_cons, ih]

theorem sms_go_calls (sendOne : String → String → SMSResult)
    (b : List Char) (total : Nat) :
    ∀ (rs : List (List (String × String))) (i : Nat),
    (send_sms_batch_go sendOne b total i rs).calls.length =
      (rs.filter (fun r => dget r "phone" ≠ "")).length := by
  intro rs
  induction rs with
  | nil => intro i; rfl
  | cons r rest ih =>
    intro i
    rw [send_sms_batch_go]
    by_cases h : dget r "phone" = ""
    · rw [if_pos h, List.filter_cons_of_neg (by simpa using h)]
      exact ih (i + 1)
    · rw [if_neg h, List.filter_cons_of_pos (by simpa using h)]
      simp only [List.length_cons, ih]

theorem email_go_progress (sendOne : String → String → String → String → EmailResult)
    (s b : List Char) (total : Nat) :
    ∀ (rs : List (List (String × String))) (i : Nat),
    (send_emails_batch_go sendOne s b total i rs).progress =
      ((List.enumFrom i rs).filter (fun p => dget p.2 "email" ≠ "")).map
        (fun p => (p.1 + 1, total,
          sendOne (dget p.2 "email") (dget p.2 "name")
            (String.mk (personalize p.2 s)) (String.mk (personalize p.2 b)))) := by
  intro rs
  induction rs with
  | nil => intro i; rfl
  | cons r rest ih =>
    intro i
    rw [send_emails_batch_go, List.enumFrom_cons]
    by_cases h : dget r "email" = ""
    · rw [if_pos h, List.filter_cons_of_neg (by simpa using h)]
      exact ih (i + 1)
    · rw [if_neg h, List.filter_cons_of_pos (by simpa using h)]
      simp only [List.map_cons, ih]

theorem sms_go_progress (sendOne : String → String → SMSResult)
    (b : List Char) (total : Nat) :
    ∀ (rs : List (List (String × String))) (i : Nat),
    (send_sms_batch_go sendOne b total i rs).progress =
      ((List.enumFrom i rs).filter (fun p => dget p.2 "phone" ≠ "")).map
        (fun p => (p.1 + 1, total,
          sendOne (dget p.2 "phone") (String.mk (personalize p.2 b)))) := by
  intro rs
  induction rs with
  | nil => intro i; rfl
  | cons r rest ih =>
    intro i
    rw [send_sms_batch_go, List.enumFrom_cons]
    by_cases h : dget r "phone" = ""
    · rw [if_pos h, List.filter_cons_of_neg (by simpa using h)]
      exact ih (i + 1)
    · rw [if_neg h, List.filter_cons_of_pos (by simpa using h)]
      simp only [List.map_cons, ih]

/-- C6 (confirmed): for any send collaborator and any recipient list
(empty included) both batch senders return exactly one result per
recipient; a recipient whose channel address field is empty yields the
recorded failure result and contributes no network call (the number of
network-level send calls equals the number of recipients with a non-empty
address); and per-recipient failures are data — the batch is a total
function that completes for every `sendOne`, including one that fails every
recipient. -/
theorem C6_send_batch :
    (∀ (sendOne : String → String → String → String → EmailResult)
       (recipients : List (List (String × String))) (subject body : String),
      (send_emails_batch sendOne recipients subject body).results.length =
        recipients.length) ∧
    (∀ (sendOne : String → String → String → String → EmailResult)
       (recipients : List (List (String × String))) (subject body : String)
       (j : Nat), dget (recipients.getD j []) "email" = "" → j < recipients.length →
      (send_emails_batch sendOne recipients subject body).results.getD j
          { to_email := "", success := true } =
        { to_email := "", success := false, status_code := 0, error := "No email" }) ∧
    (∀ (sendOne : String → String → String → String → EmailResult)
       (recipients : List (List (String × String))) (subject body : String),
      (send_emails_batch sendOne recipients subject body).calls.length =
        (recipients.filter (fun r => dget r "email" ≠ "")).length) ∧
    (∀ (sendOne : String → String → SMSResult)
       (recipients : List (List (String × String))) (body : String),
      (send_sms_batch sendOne recipients body).results.length = recipients.length) ∧
    (∀ (sendOne : String → String → SMSResult)
       (recipients : List (List (String × String))) (body : String)
       (j : Nat), dget (recipients.getD j []) "phone" = "" → j < recipients.length →
      (send_sms_batch sendOne recipients body).results.getD j
          { to_phone := "", success := true } =
        { to_phone := "", success := false, sid := "", error := "No phone" }) ∧
    (∀ (sendOne : String → String → SMSResult)
       (recipients : List (List (String × String))) (body : String),
      (send_sms_batch sendOne recipients body).calls.length =
        (recipients.filter (fun r => dget r "phone" ≠ "")).length) :=
  ⟨fun sendOne rs s b => email_go_len sendOne s.data b.data rs.length rs 0,
   fun sendOne rs s b j h1 h2 => email_go_skip sendOne s.data b.data rs.length rs 0 j h1 h2,
   fun sendOne rs s b => email_go_calls sendOne s.data b.data rs.length rs 0,
   fun sendOne rs b => sms_go_len sendOne b.data rs.length rs 0,
   fun sendOne rs b j h1 h2 => sms_go_skip sendOne b.data rs.length rs 0 j h1 h2,
   fun sendOne rs b => sms_go_calls sendOne b.data rs.length rs 0⟩

/-- Witness for C6: a two-recipient batch whose first recipient has no
email address — every recipient gets a result, index 0 is the recorded
failure, and exactly one network call is made. -/
theorem C6_send_batch_witness :
    (send_emails_batch (fun e _ _ _ => { to_email := e, success := true })
        [[("name", "A")], [("email", "b@x.co")]] "s" "b").results.length = 2 ∧
    (send_emails_batch (fun e _ _ _ => { to_email := e, success := true })
        [[("name", "A")], [("email", "b@x.co")]] "s" "b").results.getD 0
        { to_email := "", success := true } =
      { to_email := "", success := false, status_code := 0, error := "No email" } ∧
    (send_emails_batch (fun e _ _ _ => { to_email := e, success := true })
        [[("name", "A")], [("email", "b@x.co")]] "s" "b").calls.length =
      ([[("name", "A")], [("email", "b@x.co")]].filter
        (fun r => dget r "email" ≠ "")).length :=
  ⟨C6_send_batch.1 (fun e _ _ _ => { to_email := e, success := true })
      [[("name", "A")], [("email", "b@x.co")]] "s" "b",
   C6_send_batch.2.1 (fun e _ _ _ => { to_email := e, success := true })
      [[("name", "A")], [("email", "b@x.co")]] "s" "b" 0 (by decide) (by decide),
   C6_send_batch.2.2.1 (fun e _ _ _ => { to_email := e, success := true })
      [[("name", "A")], [("email", "b@x.co")]] "s" "b"⟩

/-- C9 counterexample: a batch whose single recipient has an empty email
triggers the progress callback zero times, not `len(recipients)` times —
the `continue` on the missing-address path skips the callback. -/
theorem C9_counterexample :
    (send_emails_batch (fun e _ _ _ => { to_email := e, success := true })
        [[("email", "")]] "s" "b").progress.length = 0 ∧
    ([[("email", "")]] : List (List (String × String))).length = 1 := by
  decide

/-- C9 (amended): the progress callback is invoked exactly once after each
NON-skipped recipient's attempt, in order, with the recipient's 1-based
position, the total recipient count, and that recipient's result; a
recipient skipped for a missing address triggers no invocation, so the
callback runs once per recipient with a non-empty address (not once per
recipient). -/
theorem C9_progress :
    (∀ (sendOne : String → String → String → String → EmailResult)
       (recipients : List (List (String × String))) (subject body : String),
      (send_emails_batch sendOne recipients subject body).progress =
        (recipients.enum.filter (fun p => dget p.2 "email" ≠ "")).map
          (fun p => (p.1 + 1, recipients.length,
            sendOne (dget p.2 "email") (dget p.2 "name")
              (String.mk (personalize p.2 subject.data))
              (String.mk (personalize p.2 body.data))))) ∧
    (∀ (sendOne : String → String → SMSResult)
       (recipients : List (List (String × String))) (body : String),
      (send_sms_batch sendOne recipients body).progress =
        (recipients.enum.filter (fun p => dget p.2 "phone" ≠ "")).map
          (fun p => (p.1 + 1, recipients.length,
            sendOne (dget p.2 "phone") (String.mk (personalize p.2 body.data))))) :=
  ⟨fun sendOne rs s b => email_go_progress sendOne s.data b.data rs.length rs 0,
   fun sendOne rs b => sms_go_progress sendOne b.data rs.length rs 0⟩
